import Mathlib

/-!
# DTLS handshake cache and AES-128-GCM cipher suite

A shallow embedding of `handshake_cache.go` and
`cipher_suite_tls_ecdhe_ecdsa_with_aes_128_gcm_sha256.go` (package `dtls`).

Conventions of the embedding:

* a Go byte slice is a `List Nat` (the code never does arithmetic on bytes);
* `uint16` message sequences are `Nat` (the code only compares them);
* a Go pointer that may be nil is an `Option`;
* a method that mutates its receiver returns the new receiver next to its result;
* the mutexes are left out: every method body is one critical section;
* functions of the package defined outside the two files are parameters
  (`collaborators`, `cryptoGCMMethods`) or are modelled from the spec and marked so;
* `push` is embedded once more over an explicit memory, where a copy differs
  from an alias.
-/

namespace Dtls

/-- A Go byte slice. -/
abbrev Bytes := List Nat

/-- A Go error value. -/
abbrev Error := String

/-- Modelled from the spec: the declaration of `handshakeType` lives in a file that
is not at hand. The spec calls it an enumeration of handshake message kinds and
names the seven kinds below; `other` stands for every remaining kind. -/
inductive handshakeType where
  | ClientHello
  | ServerHello
  | Certificate
  | ServerKeyExchange
  | CertificateRequest
  | ServerHelloDone
  | ClientKeyExchange
  | other (code : Nat)
  deriving DecidableEq, Repr

def handshakeTypeClientHello : handshakeType := handshakeType.ClientHello
def handshakeTypeServerHello : handshakeType := handshakeType.ServerHello
def handshakeTypeCertificate : handshakeType := handshakeType.Certificate
def handshakeTypeServerKeyExchange : handshakeType := handshakeType.ServerKeyExchange
def handshakeTypeCertificateRequest : handshakeType := handshakeType.CertificateRequest
def handshakeTypeServerHelloDone : handshakeType := handshakeType.ServerHelloDone
def handshakeTypeClientKeyExchange : handshakeType := handshakeType.ClientKeyExchange

structure handshakeCacheItem where
  typ : handshakeType
  isClient : Bool
  messageSequence : Nat
  data : Bytes
  deriving DecidableEq, Repr

structure handshakeCachePullRule where
  typ : handshakeType
  isClient : Bool
  deriving DecidableEq, Repr

structure handshakeCache where
  cache : List handshakeCacheItem
  deriving DecidableEq, Repr

def newHandshakeCache : handshakeCache := ⟨[]⟩

/-- The duplicate scan at the head of `push`: the `for` loop over `h.cache` that
leaves the method with `false` at the first item with the same sequence number
and direction. The result is `true` when the loop returned early. -/
def pushFindsDuplicate (messageSequence : Nat) (isClient : Bool) :
    List handshakeCacheItem → Bool
  | [] => false
  | i :: rest =>
    if i.messageSequence = messageSequence ∧ i.isClient = isClient then true
    else pushFindsDuplicate messageSequence isClient rest

/-- The method `push`: the returned pair is Go's boolean result and the cache
after the call. -/
def handshakeCache.push (h : handshakeCache) (data : Bytes) (messageSequence : Nat)
    (typ : handshakeType) (isClient : Bool) : Bool × handshakeCache :=
  if pushFindsDuplicate messageSequence isClient h.cache then (false, h)
  else
    (true, ⟨h.cache ++ [⟨typ, isClient, messageSequence, [] ++ data⟩]⟩)

/-- One turn of the inner loop of `pull` for rule `r` at position `i`: the body
run on the stored item `c` with the current `out`. -/
def pullBody (r : handshakeCachePullRule) (i : Nat) (out : List (Option handshakeCacheItem))
    (c : handshakeCacheItem) : List (Option handshakeCacheItem) :=
  if c.typ = r.typ ∧ c.isClient = r.isClient then
    match out.getD i none with
    | none => out.set i (some c)
    | some o => if o.messageSequence < c.messageSequence then out.set i (some c) else out
  else out

/-- The outer loop of `pull`, from position `i` on. -/
def pullLoop (cache : List handshakeCacheItem) :
    Nat → List handshakeCachePullRule → List (Option handshakeCacheItem) →
      List (Option handshakeCacheItem)
  | _, [], out => out
  | i, r :: rules, out => pullLoop cache (i + 1) rules (cache.foldl (pullBody r i) out)

/-- The method `pull`. -/
def handshakeCache.pull (h : handshakeCache) (rules : List handshakeCachePullRule) :
    List (Option handshakeCacheItem) :=
  pullLoop h.cache 0 rules (List.replicate rules.length none)

/-- One turn of the loop of `pullAndMerge`. -/
def mergeBody (merged : Bytes) (p : Option handshakeCacheItem) : Bytes :=
  match p with
  | some item => merged ++ item.data
  | none => merged

/-- The method `pullAndMerge`. -/
def handshakeCache.pullAndMerge (h : handshakeCache) (rules : List handshakeCachePullRule) :
    Bytes :=
  (h.pull rules).foldl mergeBody []

/-- A Go `hash.Hash` as `sessionHash` uses it: `new` is the object the
constructor `hf` returns, `write` is `Write` (the new object, or the error),
`sum` is `Sum` (the digest of what was written, appended to its argument). -/
structure hashFunc (σ : Type) where
  new : σ
  write : σ → Bytes → Except Error σ
  sum : σ → Bytes → Bytes

/-- The rules `sessionHash` passes to `pull`, in the order written there. -/
def sessionHashRules : List handshakeCachePullRule :=
  [⟨handshakeTypeClientHello, true⟩,
   ⟨handshakeTypeServerHello, false⟩,
   ⟨handshakeTypeCertificate, false⟩,
   ⟨handshakeTypeServerKeyExchange, false⟩,
   ⟨handshakeTypeCertificateRequest, false⟩,
   ⟨handshakeTypeServerHelloDone, false⟩,
   ⟨handshakeTypeCertificate, true⟩,
   ⟨handshakeTypeClientKeyExchange, true⟩]

/-- One turn of the loop of `sessionHash` over `handshakeBuffer`. -/
def sessionHashBody (merged : Bytes) (p : Option handshakeCacheItem) : Bytes :=
  match p with
  | none => merged
  | some item => merged ++ item.data

/-- The method `sessionHash`: Go's pair of result bytes and error. -/
def handshakeCache.sessionHash {σ : Type} (h : handshakeCache) (hf : hashFunc σ) :
    Bytes × Option Error :=
  let merged := (h.pull sessionHashRules).foldl sessionHashBody []
  match hf.write hf.new merged with
  | Except.error err => ([], some err)
  | Except.ok hash => (hf.sum hash [], none)

/-- One call of `push`, as data. -/
structure pushCall where
  data : Bytes
  messageSequence : Nat
  typ : handshakeType
  isClient : Bool
  deriving DecidableEq, Repr

/-- The cache after a sequence of `push` calls, results dropped. -/
def pushAll (h : handshakeCache) (calls : List pushCall) : handshakeCache :=
  calls.foldl (fun h c => (h.push c.data c.messageSequence c.typ c.isClient).2) h

/-- The item a successful `push` stores for a call. -/
def pushCall.item (c : pushCall) : handshakeCacheItem :=
  ⟨c.typ, c.isClient, c.messageSequence, c.data⟩

/-- The pair `push` compares when it looks for a duplicate. -/
def handshakeCacheItem.key (i : handshakeCacheItem) : Nat × Bool :=
  (i.messageSequence, i.isClient)

/-- What the body of the inner loop of `pull` does to the one slot it touches. -/
def pullStep (r : handshakeCachePullRule) (slot : Option handshakeCacheItem)
    (c : handshakeCacheItem) : Option handshakeCacheItem :=
  if c.typ = r.typ ∧ c.isClient = r.isClient then
    match slot with
    | none => some c
    | some o => if o.messageSequence < c.messageSequence then some c else some o
  else slot

/-- The slot of one rule after the whole inner loop of `pull`. -/
def pullOne (cache : List handshakeCacheItem) (r : handshakeCachePullRule) :
    Option handshakeCacheItem :=
  cache.foldl (pullStep r) none

/-- The data of the non-empty entries of a `pull` result, in order, concatenated. -/
def mergedData (out : List (Option handshakeCacheItem)) : Bytes :=
  ((out.filterMap id).map handshakeCacheItem.data).flatten

/-- The key a call of `push` is compared on. -/
def pushCall.key (c : pushCall) : Nat × Bool :=
  (c.messageSequence, c.isClient)

/-! ## The cipher suite -/

/-- Modelled from the spec: `encryptionKeys` is declared in a file that is not at
hand. The spec says the PRF yields four values, clientWriteKey, clientWriteIV,
serverWriteKey and serverWriteIV, which are the four fields `init` reads. -/
structure encryptionKeys where
  clientWriteKey : Bytes
  clientWriteIV : Bytes
  serverWriteKey : Bytes
  serverWriteIV : Bytes
  deriving DecidableEq, Repr

/-- Modelled from the spec: `cryptoGCM` is declared in a file that is not at hand.
The spec describes the initialized key state as a local key and IV and a remote
key and IV; the fields follow the parameter order of the constructor call in
`init`. -/
structure cryptoGCM where
  localKey : Bytes
  localWriteIV : Bytes
  remoteKey : Bytes
  remoteWriteIV : Bytes
  deriving DecidableEq, Repr

/-- Modelled from the spec: the constructor `newCryptoGCM` is defined in a file
that is not at hand. Per the spec the first key and IV become the local pair
(used to encrypt) and the second the remote pair (used to decrypt). -/
def newCryptoGCM (localKey localWriteIV remoteKey remoteWriteIV : Bytes) :
    Except Error cryptoGCM :=
  Except.ok ⟨localKey, localWriteIV, remoteKey, remoteWriteIV⟩

/-- The functions `init` calls that are defined outside the two files: the hash
constructor `sha256.New`, the key derivation `prfEncryptionKeys` (arguments in
the order of its call) and the constructor `newCryptoGCM`. A failing call is an
`Except.error`; Go returns the nil pointer next to the error. -/
structure collaborators (σ : Type) where
  sha256New : hashFunc σ
  prfEncryptionKeys :
    Bytes → Bytes → Bytes → Nat → Nat → Nat → hashFunc σ → Except Error encryptionKeys
  newCryptoGCM : Bytes → Bytes → Bytes → Bytes → Except Error cryptoGCM

structure cipherSuiteTLSEcdheEcdsaWithAes128GcmSha256 where
  gcm : Option cryptoGCM
  deriving DecidableEq, Repr

/-- The method `hashFunc` of the suite. -/
def cipherSuiteTLSEcdheEcdsaWithAes128GcmSha256.hashFunc {σ : Type}
    (env : collaborators σ) (_c : cipherSuiteTLSEcdheEcdsaWithAes128GcmSha256) : hashFunc σ :=
  env.sha256New

def prfMacLen : Nat := 0
def prfKeyLen : Nat := 16
def prfIvLen : Nat := 4

/-- The method `init`: the suite after the call and Go's error result. The
assignment `c.gcm, err = newCryptoGCM(...)` stores whatever pointer the
constructor returns, nil on failure. -/
def cipherSuiteTLSEcdheEcdsaWithAes128GcmSha256.init {σ : Type} (env : collaborators σ)
    (c : cipherSuiteTLSEcdheEcdsaWithAes128GcmSha256)
    (masterSecret clientRandom serverRandom : Bytes) (isClient : Bool) :
    cipherSuiteTLSEcdheEcdsaWithAes128GcmSha256 × Option Error :=
  match env.prfEncryptionKeys masterSecret clientRandom serverRandom
      prfMacLen prfKeyLen prfIvLen (c.hashFunc env) with
  | Except.error err => (c, some err)
  | Except.ok keys =>
    let made :=
      if isClient then
        env.newCryptoGCM keys.clientWriteKey keys.clientWriteIV
          keys.serverWriteKey keys.serverWriteIV
      else
        env.newCryptoGCM keys.serverWriteKey keys.serverWriteIV
          keys.clientWriteKey keys.clientWriteIV
    match made with
    | Except.ok g => (⟨some g⟩, none)
    | Except.error err => (⟨none⟩, some err)

/-- The method `isInitialized`: `c.gcm != nil`. -/
def cipherSuiteTLSEcdheEcdsaWithAes128GcmSha256.isInitialized
    (c : cipherSuiteTLSEcdheEcdsaWithAes128GcmSha256) : Bool :=
  c.gcm.isSome

/-- The zero value of the struct, the suite before any `init`: `gcm` is nil. -/
def newCipherSuite : cipherSuiteTLSEcdheEcdsaWithAes128GcmSha256 := ⟨none⟩

/-- Modelled from the spec: `recordLayer` is declared in a file that is not at
hand. The spec speaks of the record metadata of the caller, which supplies the
explicit per-record sequence number. -/
structure recordLayer where
  sequenceNumber : Nat
  deriving DecidableEq, Repr

/-- The methods `encrypt` and `decrypt` of `cryptoGCM`, which the suite calls and
which are defined outside the two files. Each returns Go's pair of bytes and
error, and reads the key state without changing it. -/
structure cryptoGCMMethods where
  encrypt : cryptoGCM → recordLayer → Bytes → Bytes × Option Error
  decrypt : cryptoGCM → Bytes → Bytes × Option Error

/-- The method `encrypt` of the suite. After the `isInitialized` test `c.gcm` is
not nil; the last branch stands for the nil dereference that cannot happen. -/
def cipherSuiteTLSEcdheEcdsaWithAes128GcmSha256.encrypt (gcm : cryptoGCMMethods)
    (c : cipherSuiteTLSEcdheEcdsaWithAes128GcmSha256) (pkt : recordLayer) (raw : Bytes) :
    Bytes × Option Error :=
  if !c.isInitialized then
    ([], some "CipherSuite has not been initialized, unable to encrypt")
  else
    match c.gcm with
    | some g => gcm.encrypt g pkt raw
    | none => ([], some "nil pointer dereference")

/-- The method `decrypt` of the suite. -/
def cipherSuiteTLSEcdheEcdsaWithAes128GcmSha256.decrypt (gcm : cryptoGCMMethods)
    (c : cipherSuiteTLSEcdheEcdsaWithAes128GcmSha256) (raw : Bytes) :
    Bytes × Option Error :=
  if !c.isInitialized then
    ([], some "CipherSuite has not been initialized, unable to decrypt ")
  else
    match c.gcm with
    | some g => gcm.decrypt g raw
    | none => ([], some "nil pointer dereference")

/-- Modelled from the spec: the bodies of `cryptoGCM.encrypt` and
`cryptoGCM.decrypt` are not at hand. Per the spec `encrypt` seals with the local
key and IV and `decrypt` opens with the remote key and IV. The property says
that the AEAD opens under the same key and IV what it sealed: a key state whose
remote pair is the local pair of another opens what the other sealed. -/
def cryptoGCMMethods.opensWhatItSealed (gcm : cryptoGCMMethods) : Prop :=
  ∀ (g1 g2 : cryptoGCM) (pkt : recordLayer) (raw : Bytes),
    g1.localKey = g2.remoteKey → g1.localWriteIV = g2.remoteWriteIV →
      ∃ sealed, gcm.encrypt g1 pkt raw = (sealed, none) ∧ gcm.decrypt g2 sealed = (raw, none)

/-- One call on a suite, as data. -/
inductive suiteCall where
  | init (masterSecret clientRandom serverRandom : Bytes) (isClient : Bool)
  | encrypt (pkt : recordLayer) (raw : Bytes)
  | decrypt (raw : Bytes)
  deriving DecidableEq, Repr

/-- The suite after one call. Only `init` assigns `c.gcm`; `encrypt` and
`decrypt` assign no field of the receiver. -/
def runCall {σ : Type} (env : collaborators σ)
    (c : cipherSuiteTLSEcdheEcdsaWithAes128GcmSha256) :
    suiteCall → cipherSuiteTLSEcdheEcdsaWithAes128GcmSha256
  | suiteCall.init masterSecret clientRandom serverRandom isClient =>
    (c.init env masterSecret clientRandom serverRandom isClient).1
  | suiteCall.encrypt _ _ => c
  | suiteCall.decrypt _ => c

/-- The suite after a sequence of calls. -/
def runCalls {σ : Type} (env : collaborators σ)
    (c : cipherSuiteTLSEcdheEcdsaWithAes128GcmSha256) (calls : List suiteCall) :
    cipherSuiteTLSEcdheEcdsaWithAes128GcmSha256 :=
  calls.foldl (runCall env) c

/-- A later call that cannot move the key state set by
`init masterSecret clientRandom serverRandom isClient`: an `encrypt`, a
`decrypt`, an `init` with the same four arguments, or an `init` whose key
derivation fails. -/
def suiteCall.keepsKeys {σ : Type} (env : collaborators σ)
    (masterSecret clientRandom serverRandom : Bytes) (isClient : Bool) : suiteCall → Prop
  | suiteCall.init ms cr sr ic =>
    (ms = masterSecret ∧ cr = clientRandom ∧ sr = serverRandom ∧ ic = isClient) ∨
      ∃ err, env.prfEncryptionKeys ms cr sr 0 16 4 env.sha256New = Except.error err
  | suiteCall.encrypt _ _ => True
  | suiteCall.decrypt _ => True

/-! ## The cache over an explicit memory

The value-level cache above cannot tell a copy from an alias. Here byte buffers
live in a memory, a slice is the address of its buffer, and `push` is read once
more from the source with `append([]byte{}, data...)` as what it is: a new
buffer filled with the bytes of `data`. -/

/-- The byte buffers allocated so far; the address of a buffer is its index. -/
abbrev Memory := List Bytes

/-- The bytes of the buffer at an address. -/
def Memory.read (m : Memory) (p : Nat) : Bytes := m.getD p []

/-- A mutation of the buffer at an address. -/
def Memory.write (m : Memory) (p : Nat) (bytes : Bytes) : Memory := m.set p bytes

/-- An allocation: the address of the new buffer and the memory holding it. -/
def Memory.alloc (m : Memory) (bytes : Bytes) : Nat × Memory := (m.length, m ++ [bytes])

/-- A `handshakeCacheItem` whose `data` is the address of its buffer. -/
structure memCacheItem where
  typ : handshakeType
  isClient : Bool
  messageSequence : Nat
  data : Nat
  deriving DecidableEq, Repr

/-- A `handshakeCache` over memory. -/
structure memCache where
  cache : List memCacheItem
  deriving DecidableEq, Repr

/-- The duplicate scan of `push` over items in memory. -/
def memPushFindsDuplicate (messageSequence : Nat) (isClient : Bool) :
    List memCacheItem → Bool
  | [] => false
  | i :: rest =>
    if i.messageSequence = messageSequence ∧ i.isClient = isClient then true
    else memPushFindsDuplicate messageSequence isClient rest

/-- The method `push` over memory: `data` is the address of the buffer of the
caller. The result is Go's boolean, the cache and the memory after the call. -/
def memCache.push (h : memCache) (m : Memory) (data : Nat) (messageSequence : Nat)
    (typ : handshakeType) (isClient : Bool) : Bool × memCache × Memory :=
  if memPushFindsDuplicate messageSequence isClient h.cache then (false, h, m)
  else
    let copy := m.alloc ([] ++ m.read data)
    (true, ⟨h.cache ++ [⟨typ, isClient, messageSequence, copy.1⟩]⟩, copy.2)

/-- The value of a stored item: its fields with the bytes its buffer holds. -/
def memCacheItem.value (m : Memory) (i : memCacheItem) : handshakeCacheItem :=
  ⟨i.typ, i.isClient, i.messageSequence, m.read i.data⟩

/-- The value-level cache that a cache over memory stands for. -/
def memCache.value (h : memCache) (m : Memory) : handshakeCache :=
  ⟨h.cache.map (memCacheItem.value m)⟩

/-- The last matching entry of a cache in storage order. -/
def lastMatch (cache : List handshakeCacheItem) (r : handshakeCachePullRule) :
    Option handshakeCacheItem :=
  (cache.filter (fun c => decide (c.typ = r.typ ∧ c.isClient = r.isClient))).getLast?

/-! ## Sample values used by the worked cases -/

/-- A cache filled out of canonical order, with one message no canonical rule asks for. -/
def sampleCache : handshakeCache :=
  ⟨[⟨handshakeTypeServerHello, false, 0, [2]⟩, ⟨handshakeTypeClientHello, true, 0, [1]⟩,
    ⟨handshakeType.other 20, true, 1, [9]⟩, ⟨handshakeTypeServerKeyExchange, false, 1, [3]⟩]⟩

/-- A hash whose digest is the written bytes themselves. -/
def sampleHash : hashFunc Bytes :=
  ⟨[], fun st p => Except.ok (st ++ p), fun st b => b ++ st⟩

/-- A hash whose `Write` always fails. -/
def brokenHash : hashFunc Bytes :=
  ⟨[], fun _ _ => Except.error "write failed", fun st b => b ++ st⟩

/-- A key derivation that cuts the keys out of the master secret and the randoms. -/
def samplePrf (masterSecret clientRandom serverRandom : Bytes) (_macLen keyLen ivLen : Nat)
    (_hf : hashFunc Bytes) : Except Error encryptionKeys :=
  Except.ok ⟨(masterSecret ++ clientRandom).take keyLen, clientRandom.take ivLen,
    (masterSecret ++ serverRandom).take keyLen, serverRandom.take ivLen⟩

def sampleEnv : collaborators Bytes :=
  ⟨sampleHash, samplePrf, newCryptoGCM⟩

/-- A key derivation that fails unless asked for the lengths of this suite. -/
def strictPrf (masterSecret clientRandom serverRandom : Bytes) (macLen keyLen ivLen : Nat)
    (hf : hashFunc Bytes) : Except Error encryptionKeys :=
  if macLen = 0 ∧ keyLen = 16 ∧ ivLen = 4 then
    samplePrf masterSecret clientRandom serverRandom macLen keyLen ivLen hf
  else Except.error "unsupported lengths"

def strictEnv : collaborators Bytes :=
  ⟨sampleHash, strictPrf, newCryptoGCM⟩

/-- A key derivation that always fails. -/
def failingPrf (_masterSecret _clientRandom _serverRandom : Bytes) (_macLen _keyLen _ivLen : Nat)
    (_hf : hashFunc Bytes) : Except Error encryptionKeys :=
  Except.error "prf failed"

def failingEnv : collaborators Bytes :=
  ⟨sampleHash, failingPrf, newCryptoGCM⟩

/-- A toy AEAD: sealing puts the key and the IV in front of the plaintext,
opening checks that they are there and strips them. -/
def sampleGCM : cryptoGCMMethods :=
  ⟨fun g _ raw => ((g.localKey ++ g.localWriteIV) ++ raw, none),
   fun g raw =>
    if raw.take (g.remoteKey ++ g.remoteWriteIV).length = g.remoteKey ++ g.remoteWriteIV then
      (raw.drop (g.remoteKey ++ g.remoteWriteIV).length, none)
    else ([], some "authentication failed")⟩

/-- An AEAD on which every call succeeds with a fixed output. -/
def constantGCM : cryptoGCMMethods :=
  ⟨fun _ _ _ => ([42], none), fun _ _ => ([42], none)⟩

/-! ## push -/

theorem pushFindsDuplicate_iff (messageSequence : Nat) (isClient : Bool)
    (l : List handshakeCacheItem) :
    pushFindsDuplicate messageSequence isClient l = true ↔
      ∃ i ∈ l, i.messageSequence = messageSequence ∧ i.isClient = isClient := by
  induction l with
  | nil => simp [pushFindsDuplicate]
  | cons a l ih =>
    by_cases ha : a.messageSequence = messageSequence ∧ a.isClient = isClient
    · simp only [pushFindsDuplicate, if_pos ha, true_iff]
      exact ⟨a, List.mem_cons_self a l, ha⟩
    · simp only [pushFindsDuplicate, if_neg ha, ih, List.mem_cons]
      constructor
      · rintro ⟨i, hi, hk⟩
        exact ⟨i, Or.inr hi, hk⟩
      · rintro ⟨i, hi | hi, hk⟩
        · exact absurd (hi ▸ hk) ha
        · exact ⟨i, hi, hk⟩

theorem pushFindsDuplicate_eq_false (messageSequence : Nat) (isClient : Bool)
    (l : List handshakeCacheItem)
    (hfree : ∀ i ∈ l, ¬ (i.messageSequence = messageSequence ∧ i.isClient = isClient)) :
    pushFindsDuplicate messageSequence isClient l = false := by
  cases hd : pushFindsDuplicate messageSequence isClient l with
  | false => rfl
  | true =>
    obtain ⟨i, hi, hk⟩ := (pushFindsDuplicate_iff messageSequence isClient l).mp hd
    exact absurd hk (hfree i hi)

/-- C1. A `push` whose sequence number and direction are already held by a stored
item, whatever the types and data involved, returns false and hands back the
very same cache: same items, same order, same fields. -/
theorem push_duplicate_rejected (h : handshakeCache) (data : Bytes) (messageSequence : Nat)
    (typ : handshakeType) (isClient : Bool)
    (hdup : ∃ i ∈ h.cache, i.messageSequence = messageSequence ∧ i.isClient = isClient) :
    h.push data messageSequence typ isClient = (false, h) := by
  have hd := (pushFindsDuplicate_iff messageSequence isClient h.cache).mpr hdup
  simp [handshakeCache.push, hd]

theorem push_duplicate_rejected_witness :
    (∃ i ∈ (handshakeCache.mk [⟨handshakeTypeClientHello, true, 0, [1, 2]⟩,
        ⟨handshakeTypeServerHello, false, 0, [3]⟩]).cache,
        i.messageSequence = 0 ∧ i.isClient = false) ∧
      (handshakeCache.mk [⟨handshakeTypeClientHello, true, 0, [1, 2]⟩,
        ⟨handshakeTypeServerHello, false, 0, [3]⟩]).push [9, 9] 0 handshakeTypeCertificate false
        = (false, handshakeCache.mk [⟨handshakeTypeClientHello, true, 0, [1, 2]⟩,
            ⟨handshakeTypeServerHello, false, 0, [3]⟩]) :=
  ⟨⟨⟨handshakeTypeServerHello, false, 0, [3]⟩, by decide, by decide⟩,
    push_duplicate_rejected _ [9, 9] 0 handshakeTypeCertificate false
      ⟨⟨handshakeTypeServerHello, false, 0, [3]⟩, by decide, by decide⟩⟩

theorem push_of_fresh (h : handshakeCache) (data : Bytes) (messageSequence : Nat)
    (typ : handshakeType) (isClient : Bool)
    (hfree : ∀ i ∈ h.cache,
      ¬ (i.messageSequence = messageSequence ∧ i.isClient = isClient)) :
    h.push data messageSequence typ isClient
      = (true, ⟨h.cache ++ [⟨typ, isClient, messageSequence, data⟩]⟩) := by
  have hd := pushFindsDuplicate_eq_false messageSequence isClient h.cache hfree
  simp [handshakeCache.push, hd]

/-- C9. A `push` whose sequence number and direction are held by no stored item
returns true; the new cache is the old one with one item appended at the end,
carrying the four arguments; the items stored before keep their positions and
their contents. -/
theorem push_fresh_appends (h : handshakeCache) (data : Bytes) (messageSequence : Nat)
    (typ : handshakeType) (isClient : Bool)
    (hfree : ∀ i ∈ h.cache,
      ¬ (i.messageSequence = messageSequence ∧ i.isClient = isClient)) :
    h.push data messageSequence typ isClient
        = (true, ⟨h.cache ++ [⟨typ, isClient, messageSequence, data⟩]⟩) ∧
      (h.push data messageSequence typ isClient).2.cache.length = h.cache.length + 1 ∧
      (∀ k, k < h.cache.length →
        (h.push data messageSequence typ isClient).2.cache[k]? = h.cache[k]?) ∧
      (h.push data messageSequence typ isClient).2.cache[h.cache.length]?
        = some ⟨typ, isClient, messageSequence, data⟩ := by
  have hp := push_of_fresh h data messageSequence typ isClient hfree
  refine ⟨hp, ?_, ?_, ?_⟩
  · rw [hp]; simp
  · intro k hk
    rw [hp]
    exact List.getElem?_append_left hk
  · rw [hp]
    exact List.getElem?_concat_length _ _

theorem push_fresh_appends_witness :
    (∀ i ∈ (handshakeCache.mk [⟨handshakeTypeClientHello, true, 0, [1, 2]⟩]).cache,
        ¬ (i.messageSequence = 0 ∧ i.isClient = false)) ∧
      (handshakeCache.mk [⟨handshakeTypeClientHello, true, 0, [1, 2]⟩]).push
          [7] 0 handshakeTypeServerHello false
        = (true, ⟨[⟨handshakeTypeClientHello, true, 0, [1, 2]⟩,
            ⟨handshakeTypeServerHello, false, 0, [7]⟩]⟩) :=
  ⟨by decide,
    (push_fresh_appends ⟨[⟨handshakeTypeClientHello, true, 0, [1, 2]⟩]⟩
      [7] 0 handshakeTypeServerHello false (by decide)).1⟩

/-! ## Sequences of pushes -/

theorem pushAll_nil (h : handshakeCache) : pushAll h [] = h := rfl

theorem pushAll_cons (h : handshakeCache) (c : pushCall) (cs : List pushCall) :
    pushAll h (c :: cs)
      = pushAll (h.push c.data c.messageSequence c.typ c.isClient).2 cs := rfl

theorem key_eq_iff (a b : handshakeCacheItem) :
    a.key = b.key ↔ a.messageSequence = b.messageSequence ∧ a.isClient = b.isClient := by
  simp [handshakeCacheItem.key, Prod.ext_iff]

theorem push_keeps_keys_nodup (h : handshakeCache) (data : Bytes) (messageSequence : Nat)
    (typ : handshakeType) (isClient : Bool)
    (hnd : (h.cache.map handshakeCacheItem.key).Nodup) :
    ((h.push data messageSequence typ isClient).2.cache.map handshakeCacheItem.key).Nodup := by
  cases hd : pushFindsDuplicate messageSequence isClient h.cache with
  | true => simpa [handshakeCache.push, hd] using hnd
  | false =>
    have hfree : ∀ i ∈ h.cache,
        ¬ (i.messageSequence = messageSequence ∧ i.isClient = isClient) := by
      intro i hi hk
      have := (pushFindsDuplicate_iff messageSequence isClient h.cache).mpr ⟨i, hi, hk⟩
      rw [hd] at this
      exact Bool.noConfusion this
    simp only [handshakeCache.push, hd, Bool.false_eq_true, if_false, List.map_append,
      List.map_cons, List.map_nil, List.nil_append]
    rw [List.nodup_append]
    refine ⟨hnd, List.nodup_singleton _, ?_⟩
    intro k hk hk2
    rw [List.mem_singleton] at hk2
    obtain ⟨i, hi, hik⟩ := List.mem_map.mp hk
    apply hfree i hi
    have : i.key = (messageSequence, isClient) := by rw [hik, hk2]; rfl
    simpa [handshakeCacheItem.key, Prod.ext_iff] using this

theorem pushAll_keeps_keys_nodup (calls : List pushCall) (h : handshakeCache)
    (hnd : (h.cache.map handshakeCacheItem.key).Nodup) :
    ((pushAll h calls).cache.map handshakeCacheItem.key).Nodup := by
  induction calls generalizing h with
  | nil => exact hnd
  | cons c cs ih =>
    rw [pushAll_cons]
    exact ih _ (push_keeps_keys_nodup h c.data c.messageSequence c.typ c.isClient hnd)

/-- C2. In the cache reached from `newHandshakeCache` by any sequence of `push`
calls, two items at different positions never share both the sequence number
and the direction. -/
theorem reachable_keys_unique (calls : List pushCall) (i j : Nat) (a b : handshakeCacheItem)
    (hi : (pushAll newHandshakeCache calls).cache[i]? = some a)
    (hj : (pushAll newHandshakeCache calls).cache[j]? = some b) (hij : i ≠ j) :
    ¬ (a.messageSequence = b.messageSequence ∧ a.isClient = b.isClient) := by
  have hnd := pushAll_keeps_keys_nodup calls newHandshakeCache List.nodup_nil
  intro hk
  have hkey := (key_eq_iff _ _).mpr hk
  obtain ⟨hil, hia⟩ := List.getElem?_eq_some.mp hi
  obtain ⟨hjl, hjb⟩ := List.getElem?_eq_some.mp hj
  have hi2 : i < ((pushAll newHandshakeCache calls).cache.map handshakeCacheItem.key).length := by
    simpa using hil
  have hj2 : j < ((pushAll newHandshakeCache calls).cache.map handshakeCacheItem.key).length := by
    simpa using hjl
  have heq : ((pushAll newHandshakeCache calls).cache.map handshakeCacheItem.key)[i]
      = ((pushAll newHandshakeCache calls).cache.map handshakeCacheItem.key)[j] := by
    simp only [List.getElem_map, hia, hjb, hkey]
  exact hij ((List.Nodup.getElem_inj_iff hnd).mp heq)

theorem reachable_keys_unique_witness :
    (pushAll newHandshakeCache
        [⟨[1], 0, handshakeTypeClientHello, true⟩, ⟨[2], 0, handshakeTypeServerHello, true⟩,
          ⟨[3], 0, handshakeTypeServerHello, false⟩, ⟨[4], 1, handshakeTypeClientHello, true⟩,
          ⟨[5], 0, handshakeTypeCertificate, false⟩]).cache[0]?
        = some ⟨handshakeTypeClientHello, true, 0, [1]⟩ ∧
      (pushAll newHandshakeCache
        [⟨[1], 0, handshakeTypeClientHello, true⟩, ⟨[2], 0, handshakeTypeServerHello, true⟩,
          ⟨[3], 0, handshakeTypeServerHello, false⟩, ⟨[4], 1, handshakeTypeClientHello, true⟩,
          ⟨[5], 0, handshakeTypeCertificate, false⟩]).cache[2]?
        = some ⟨handshakeTypeClientHello, true, 1, [4]⟩ ∧
      (0 : Nat) ≠ 2 ∧
      ¬ ((handshakeCacheItem.mk handshakeTypeClientHello true 0 [1]).messageSequence
            = (handshakeCacheItem.mk handshakeTypeClientHello true 1 [4]).messageSequence ∧
          (handshakeCacheItem.mk handshakeTypeClientHello true 0 [1]).isClient
            = (handshakeCacheItem.mk handshakeTypeClientHello true 1 [4]).isClient) :=
  ⟨by decide, by decide, by decide,
    reachable_keys_unique
      [⟨[1], 0, handshakeTypeClientHello, true⟩, ⟨[2], 0, handshakeTypeServerHello, true⟩,
        ⟨[3], 0, handshakeTypeServerHello, false⟩, ⟨[4], 1, handshakeTypeClientHello, true⟩,
        ⟨[5], 0, handshakeTypeCertificate, false⟩]
      0 2 _ _ (by decide) (by decide) (by decide)⟩

/-! ## pull -/

theorem pullBody_slot (r : handshakeCachePullRule) (pre suf : List (Option handshakeCacheItem))
    (a : Option handshakeCacheItem) (c : handshakeCacheItem) :
    pullBody r pre.length (pre ++ a :: suf) c = pre ++ pullStep r a c :: suf := by
  have hget : (pre ++ a :: suf).getD pre.length none = a := by
    rw [List.getD_eq_getElem?_getD, List.getElem?_append_right (le_refl _)]
    simp
  have hset : ∀ x, (pre ++ a :: suf).set pre.length x = pre ++ x :: suf := by
    intro x
    rw [List.set_append_right _ _ (le_refl _)]
    simp
  unfold pullBody pullStep
  rw [hget]
  by_cases hm : c.typ = r.typ ∧ c.isClient = r.isClient
  · rw [if_pos hm, if_pos hm]
    cases a with
    | none => exact hset _
    | some o =>
      by_cases hlt : o.messageSequence < c.messageSequence
      · simp only [if_pos hlt]
        exact hset _
      · simp only [if_neg hlt]
  · rw [if_neg hm, if_neg hm]

theorem foldl_pullBody_slot (r : handshakeCachePullRule) (cache : List handshakeCacheItem)
    (pre suf : List (Option handshakeCacheItem)) (a : Option handshakeCacheItem) :
    cache.foldl (pullBody r pre.length) (pre ++ a :: suf)
      = pre ++ cache.foldl (pullStep r) a :: suf := by
  induction cache generalizing a with
  | nil => rfl
  | cons c cs ih =>
    rw [List.foldl_cons, pullBody_slot, ih, List.foldl_cons]

theorem pullLoop_eq (cache : List handshakeCacheItem) (rules : List handshakeCachePullRule)
    (pre : List (Option handshakeCacheItem)) :
    pullLoop cache pre.length rules (pre ++ List.replicate rules.length none)
      = pre ++ rules.map (pullOne cache) := by
  induction rules generalizing pre with
  | nil => simp [pullLoop]
  | cons r rs ih =>
    have hstep : pullLoop cache pre.length (r :: rs)
        (pre ++ List.replicate (r :: rs).length none)
        = pullLoop cache (pre ++ [pullOne cache r]).length rs
            ((pre ++ [pullOne cache r]) ++ List.replicate rs.length none) := by
      rw [pullLoop, List.length_cons, List.replicate_succ, foldl_pullBody_slot]
      simp [pullOne]
    rw [hstep, ih]
    simp

/-- The array loop of `pull` fills each position with the slot of its own rule. -/
theorem pull_eq_map (h : handshakeCache) (rules : List handshakeCachePullRule) :
    h.pull rules = rules.map (pullOne h.cache) := by
  have := pullLoop_eq h.cache rules []
  simpa [handshakeCache.pull] using this

theorem pullOne_nil (r : handshakeCachePullRule) : pullOne [] r = none := rfl

theorem pullOne_concat (l : List handshakeCacheItem) (c : handshakeCacheItem)
    (r : handshakeCachePullRule) :
    pullOne (l ++ [c]) r = pullStep r (pullOne l r) c := by
  simp [pullOne, List.foldl_append]

theorem pullOne_eq_none_iff (l : List handshakeCacheItem) (r : handshakeCachePullRule) :
    pullOne l r = none ↔ ∀ c ∈ l, ¬ (c.typ = r.typ ∧ c.isClient = r.isClient) := by
  induction l using List.reverseRecOn with
  | nil => simp [pullOne_nil]
  | append_singleton l c ih =>
    rw [pullOne_concat]
    by_cases hm : c.typ = r.typ ∧ c.isClient = r.isClient
    · have hne : pullStep r (pullOne l r) c ≠ none := by
        unfold pullStep
        rw [if_pos hm]
        cases pullOne l r with
        | none => simp
        | some o => by_cases hlt : o.messageSequence < c.messageSequence <;> simp [hlt]
      constructor
      · intro h0; exact absurd h0 hne
      · intro hall; exact absurd hm (hall c (by simp))
    · have hs : pullStep r (pullOne l r) c = pullOne l r := by
        unfold pullStep; rw [if_neg hm]
      rw [hs, ih]
      constructor
      · intro hall x hx
        rcases List.mem_append.mp hx with hx | hx
        · exact hall x hx
        · rw [List.mem_singleton] at hx; rw [hx]; exact hm
      · intro hall x hx
        exact hall x (List.mem_append_left _ hx)

theorem pullOne_some_spec (l : List handshakeCacheItem) (r : handshakeCachePullRule)
    (x : handshakeCacheItem) (hx : pullOne l r = some x) :
    x ∈ l ∧ (x.typ = r.typ ∧ x.isClient = r.isClient) ∧
      ∀ c ∈ l, c.typ = r.typ ∧ c.isClient = r.isClient →
        c.messageSequence ≤ x.messageSequence := by
  induction l using List.reverseRecOn generalizing x with
  | nil => simp [pullOne_nil] at hx
  | append_singleton l c ih =>
    rw [pullOne_concat] at hx
    by_cases hm : c.typ = r.typ ∧ c.isClient = r.isClient
    · unfold pullStep at hx
      rw [if_pos hm] at hx
      cases hprev : pullOne l r with
      | none =>
        rw [hprev] at hx
        have hxc : c = x := by simpa using hx
        subst hxc
        have hnone := (pullOne_eq_none_iff l r).mp hprev
        refine ⟨by simp, hm, ?_⟩
        intro d hd hdm
        rcases List.mem_append.mp hd with hd | hd
        · exact absurd hdm (hnone d hd)
        · rw [List.mem_singleton] at hd; rw [hd]
      | some o =>
        rw [hprev] at hx
        obtain ⟨hol, hom, homax⟩ := ih o hprev
        by_cases hlt : o.messageSequence < c.messageSequence
        · have hxc : c = x := by simpa [hlt] using hx
          subst hxc
          refine ⟨by simp, hm, ?_⟩
          intro d hd hdm
          rcases List.mem_append.mp hd with hd | hd
          · exact le_trans (homax d hd hdm) (le_of_lt hlt)
          · rw [List.mem_singleton] at hd; rw [hd]
        · have hxo : o = x := by simpa [hlt] using hx
          subst hxo
          refine ⟨List.mem_append_left _ hol, hom, ?_⟩
          intro d hd hdm
          rcases List.mem_append.mp hd with hd | hd
          · exact homax d hd hdm
          · rw [List.mem_singleton] at hd; rw [hd]; exact not_lt.mp hlt
    · unfold pullStep at hx
      rw [if_neg hm] at hx
      obtain ⟨hxl, hxm, hxmax⟩ := ih x hx
      refine ⟨List.mem_append_left _ hxl, hxm, ?_⟩
      intro d hd hdm
      rcases List.mem_append.mp hd with hd | hd
      · exact hxmax d hd hdm
      · rw [List.mem_singleton] at hd; rw [hd] at hdm; exact absurd hdm hm

theorem pull_getElem? (h : handshakeCache) (rules : List handshakeCachePullRule) (i : Nat) :
    (h.pull rules)[i]? = (rules[i]?).map (pullOne h.cache) := by
  rw [pull_eq_map, List.getElem?_map]

/-- C3. Whenever position `i` of the result of `pull` is non-empty, the entry is
a stored item, its type and direction are those of rule `i`, and no stored item
of that type and direction has a greater sequence number. Worked case: after
ClientHello from the client is pushed at sequence 0 and at sequence 2, the rule
(ClientHello, client) yields the item of sequence 2. -/
theorem pull_selects_greatest_sequence :
    (∀ (h : handshakeCache) (rules : List handshakeCachePullRule) (i : Nat)
        (item : handshakeCacheItem),
        (h.pull rules)[i]? = some (some item) →
          item ∈ h.cache ∧
          ∃ r, rules[i]? = some r ∧ item.typ = r.typ ∧ item.isClient = r.isClient ∧
            ∀ c ∈ h.cache, c.typ = r.typ → c.isClient = r.isClient →
              c.messageSequence ≤ item.messageSequence) ∧
      (∀ d0 d2 : Bytes,
        (pushAll newHandshakeCache
            [⟨d0, 0, handshakeTypeClientHello, true⟩,
              ⟨d2, 2, handshakeTypeClientHello, true⟩]).pull
            [⟨handshakeTypeClientHello, true⟩]
          = [some ⟨handshakeTypeClientHello, true, 2, d2⟩]) := by
  constructor
  · intro h rules i item hi
    rw [pull_getElem?] at hi
    cases hr : rules[i]? with
    | none => rw [hr] at hi; simp at hi
    | some r =>
      rw [hr] at hi
      have hone : pullOne h.cache r = some item := by simpa using hi
      obtain ⟨hmem, hm, hmax⟩ := pullOne_some_spec h.cache r item hone
      exact ⟨hmem, r, rfl, hm.1, hm.2, fun c hc h1 h2 => hmax c hc ⟨h1, h2⟩⟩
  · intro d0 d2
    rfl

theorem pull_selects_greatest_sequence_witness :
    ((pushAll newHandshakeCache
          [⟨[1], 0, handshakeTypeClientHello, true⟩, ⟨[5], 1, handshakeTypeServerHello, false⟩,
            ⟨[2], 2, handshakeTypeClientHello, true⟩]).pull
          [⟨handshakeTypeServerHello, false⟩, ⟨handshakeTypeClientHello, true⟩])[1]?
        = some (some ⟨handshakeTypeClientHello, true, 2, [2]⟩) ∧
      (handshakeCacheItem.mk handshakeTypeClientHello true 2 [2]) ∈
        (pushAll newHandshakeCache
          [⟨[1], 0, handshakeTypeClientHello, true⟩, ⟨[5], 1, handshakeTypeServerHello, false⟩,
            ⟨[2], 2, handshakeTypeClientHello, true⟩]).cache :=
  ⟨by decide,
    (pull_selects_greatest_sequence.1
      (pushAll newHandshakeCache
        [⟨[1], 0, handshakeTypeClientHello, true⟩, ⟨[5], 1, handshakeTypeServerHello, false⟩,
          ⟨[2], 2, handshakeTypeClientHello, true⟩])
      [⟨handshakeTypeServerHello, false⟩, ⟨handshakeTypeClientHello, true⟩] 1
      ⟨handshakeTypeClientHello, true, 2, [2]⟩ (by decide)).1⟩

/-- C4. `pull` is total and returns exactly one entry per rule; the entry at
position `i` is empty exactly when no stored item has both the type and the
direction of rule `i`. -/
theorem pull_length_and_empty_entries (h : handshakeCache)
    (rules : List handshakeCachePullRule) :
    (h.pull rules).length = rules.length ∧
      ∀ (i : Nat) (r : handshakeCachePullRule), rules[i]? = some r →
        ((h.pull rules)[i]? = some none ↔
          ∀ c ∈ h.cache, ¬ (c.typ = r.typ ∧ c.isClient = r.isClient)) := by
  constructor
  · rw [pull_eq_map, List.length_map]
  · intro i r hr
    rw [pull_getElem?, hr, ← pullOne_eq_none_iff]
    simp

theorem pull_length_and_empty_entries_witness :
    ([⟨handshakeTypeServerHello, false⟩, ⟨handshakeTypeClientHello, true⟩,
        ⟨handshakeTypeServerHello, false⟩] : List handshakeCachePullRule)[2]?
        = some ⟨handshakeTypeServerHello, false⟩ ∧
      ((handshakeCache.mk [⟨handshakeTypeClientHello, true, 0, [1]⟩,
          ⟨handshakeTypeServerHello, true, 1, [2]⟩]).pull
          [⟨handshakeTypeServerHello, false⟩, ⟨handshakeTypeClientHello, true⟩,
            ⟨handshakeTypeServerHello, false⟩])[2]? = some none ∧
      (handshakeCache.mk []).pull [] = [] :=
  ⟨by decide,
    ((pull_length_and_empty_entries
      ⟨[⟨handshakeTypeClientHello, true, 0, [1]⟩, ⟨handshakeTypeServerHello, true, 1, [2]⟩]⟩
      [⟨handshakeTypeServerHello, false⟩, ⟨handshakeTypeClientHello, true⟩,
        ⟨handshakeTypeServerHello, false⟩]).2 2 ⟨handshakeTypeServerHello, false⟩
      (by decide)).mpr (by decide),
    by decide⟩

/-! ## pullAndMerge and sessionHash -/

theorem mergedData_nil : mergedData [] = [] := rfl

theorem mergedData_cons_none (out : List (Option handshakeCacheItem)) :
    mergedData (none :: out) = mergedData out := by
  simp [mergedData]

theorem mergedData_cons_some (item : handshakeCacheItem)
    (out : List (Option handshakeCacheItem)) :
    mergedData (some item :: out) = item.data ++ mergedData out := by
  simp [mergedData]

theorem foldl_mergeBody (out : List (Option handshakeCacheItem)) (merged : Bytes) :
    out.foldl mergeBody merged = merged ++ mergedData out := by
  induction out generalizing merged with
  | nil => simp [mergedData_nil]
  | cons p ps ih =>
    cases p with
    | none => rw [List.foldl_cons, mergedData_cons_none, ← ih]; rfl
    | some item =>
      rw [List.foldl_cons, mergedData_cons_some, ih]
      simp [mergeBody]

theorem mergedData_all_none (out : List (Option handshakeCacheItem))
    (hnone : ∀ p ∈ out, p = none) : mergedData out = [] := by
  induction out with
  | nil => rfl
  | cons p ps ih =>
    have hp : p = none := hnone p (List.mem_cons_self p ps)
    subst hp
    rw [mergedData_cons_none]
    exact ih (fun q hq => hnone q (List.mem_cons_of_mem _ hq))

/-- C5. `pullAndMerge` returns the data of the non-empty entries of `pull`,
concatenated in the order of the rules; an empty entry adds nothing, and when no
rule has a match the result is the empty byte sequence. -/
theorem pullAndMerge_concatenates (h : handshakeCache)
    (rules : List handshakeCachePullRule) :
    h.pullAndMerge rules
        = (((h.pull rules).filterMap id).map handshakeCacheItem.data).flatten ∧
      ((∀ r ∈ rules, ∀ c ∈ h.cache, ¬ (c.typ = r.typ ∧ c.isClient = r.isClient)) →
        h.pullAndMerge rules = []) := by
  have hmain : h.pullAndMerge rules = mergedData (h.pull rules) := by
    unfold handshakeCache.pullAndMerge
    rw [foldl_mergeBody]
    rfl
  refine ⟨hmain, ?_⟩
  intro hno
  rw [hmain]
  apply mergedData_all_none
  intro p hp
  rw [pull_eq_map] at hp
  obtain ⟨r, hr, hrp⟩ := List.mem_map.mp hp
  rw [← hrp]
  exact (pullOne_eq_none_iff h.cache r).mpr (hno r hr)

theorem pullAndMerge_concatenates_witness :
    (∀ r ∈ ([⟨handshakeTypeServerHello, false⟩, ⟨handshakeTypeCertificate, true⟩] :
          List handshakeCachePullRule),
        ∀ c ∈ (handshakeCache.mk [⟨handshakeTypeClientHello, true, 0, [1]⟩,
            ⟨handshakeTypeServerHello, true, 1, [2]⟩]).cache,
          ¬ (c.typ = r.typ ∧ c.isClient = r.isClient)) ∧
      (handshakeCache.mk [⟨handshakeTypeClientHello, true, 0, [1]⟩,
          ⟨handshakeTypeServerHello, true, 1, [2]⟩]).pullAndMerge
          [⟨handshakeTypeServerHello, false⟩, ⟨handshakeTypeCertificate, true⟩] = [] :=
  ⟨by decide,
    (pullAndMerge_concatenates
      ⟨[⟨handshakeTypeClientHello, true, 0, [1]⟩, ⟨handshakeTypeServerHello, true, 1, [2]⟩]⟩
      [⟨handshakeTypeServerHello, false⟩, ⟨handshakeTypeCertificate, true⟩]).2 (by decide)⟩

theorem sessionHashBody_eq_mergeBody : sessionHashBody = mergeBody := by
  funext merged p
  cases p <;> rfl

theorem sessionHash_merged (h : handshakeCache) :
    (h.pull sessionHashRules).foldl sessionHashBody [] = h.pullAndMerge sessionHashRules := by
  rw [sessionHashBody_eq_mergeBody]
  rfl

theorem sessionHash_cases {σ : Type} (h : handshakeCache) (hf : hashFunc σ) :
    (∀ st, hf.write hf.new (h.pullAndMerge sessionHashRules) = Except.ok st →
        h.sessionHash hf = (hf.sum st [], none)) ∧
      (∀ err, hf.write hf.new (h.pullAndMerge sessionHashRules) = Except.error err →
        h.sessionHash hf = ([], some err)) ∧
      (∀ err, (h.sessionHash hf).2 = some err →
        hf.write hf.new (h.pullAndMerge sessionHashRules) = Except.error err) := by
  have hm := sessionHash_merged h
  have hs : h.sessionHash hf
      = match hf.write hf.new (h.pullAndMerge sessionHashRules) with
        | Except.error err => ([], some err)
        | Except.ok hash => (hf.sum hash [], none) := by
    unfold handshakeCache.sessionHash
    simp only [hm]
  refine ⟨?_, ?_, ?_⟩
  · intro st hw
    rw [hs, hw]
  · intro err hw
    rw [hs, hw]
  · intro err he
    rw [hs] at he
    cases hw : hf.write hf.new (h.pullAndMerge sessionHashRules) with
    | error e =>
      rw [hw] at he
      simp only [Option.some.injEq] at he
      rw [he]
    | ok st =>
      rw [hw] at he
      simp at he

/-- C6. `sessionHash` hands to the hash exactly `pullAndMerge` of the eight
canonical rules in their fixed order. When the write succeeds the result is the
digest of that byte sequence and no error; when the write fails the result is
the empty byte sequence with that very error; an error comes from nowhere else. -/
theorem sessionHash_digest_of_canonical_transcript {σ : Type} (h : handshakeCache)
    (hf : hashFunc σ) :
    (∀ st, hf.write hf.new (h.pullAndMerge
          [⟨handshakeTypeClientHello, true⟩, ⟨handshakeTypeServerHello, false⟩,
            ⟨handshakeTypeCertificate, false⟩, ⟨handshakeTypeServerKeyExchange, false⟩,
            ⟨handshakeTypeCertificateRequest, false⟩, ⟨handshakeTypeServerHelloDone, false⟩,
            ⟨handshakeTypeCertificate, true⟩, ⟨handshakeTypeClientKeyExchange, true⟩])
          = Except.ok st →
        h.sessionHash hf = (hf.sum st [], none)) ∧
      (∀ err, hf.write hf.new (h.pullAndMerge
          [⟨handshakeTypeClientHello, true⟩, ⟨handshakeTypeServerHello, false⟩,
            ⟨handshakeTypeCertificate, false⟩, ⟨handshakeTypeServerKeyExchange, false⟩,
            ⟨handshakeTypeCertificateRequest, false⟩, ⟨handshakeTypeServerHelloDone, false⟩,
            ⟨handshakeTypeCertificate, true⟩, ⟨handshakeTypeClientKeyExchange, true⟩])
          = Except.error err →
        h.sessionHash hf = ([], some err)) ∧
      (∀ err, (h.sessionHash hf).2 = some err →
        hf.write hf.new (h.pullAndMerge
          [⟨handshakeTypeClientHello, true⟩, ⟨handshakeTypeServerHello, false⟩,
            ⟨handshakeTypeCertificate, false⟩, ⟨handshakeTypeServerKeyExchange, false⟩,
            ⟨handshakeTypeCertificateRequest, false⟩, ⟨handshakeTypeServerHelloDone, false⟩,
            ⟨handshakeTypeCertificate, true⟩, ⟨handshakeTypeClientKeyExchange, true⟩])
          = Except.error err) := by
  exact sessionHash_cases h hf

theorem sessionHash_digest_of_canonical_transcript_witness :
    sampleHash.write sampleHash.new (sampleCache.pullAndMerge
        [⟨handshakeTypeClientHello, true⟩, ⟨handshakeTypeServerHello, false⟩,
          ⟨handshakeTypeCertificate, false⟩, ⟨handshakeTypeServerKeyExchange, false⟩,
          ⟨handshakeTypeCertificateRequest, false⟩, ⟨handshakeTypeServerHelloDone, false⟩,
          ⟨handshakeTypeCertificate, true⟩, ⟨handshakeTypeClientKeyExchange, true⟩])
        = Except.ok [1, 2, 3] ∧
      sampleCache.sessionHash sampleHash = ([1, 2, 3], none) ∧
      sampleCache.sessionHash brokenHash = ([], some "write failed") :=
  ⟨rfl,
    (sessionHash_digest_of_canonical_transcript sampleCache sampleHash).1 [1, 2, 3] rfl,
    (sessionHash_digest_of_canonical_transcript sampleCache brokenHash).2.1 "write failed" rfl⟩

/-! ## Independence of the push order -/

theorem pushAll_cache_of_keys_nodup (calls : List pushCall) (h : handshakeCache)
    (hnd : (h.cache.map handshakeCacheItem.key ++ calls.map pushCall.key).Nodup) :
    (pushAll h calls).cache = h.cache ++ calls.map pushCall.item := by
  induction calls generalizing h with
  | nil => simp [pushAll_nil]
  | cons c cs ih =>
    have hfree : ∀ i ∈ h.cache,
        ¬ (i.messageSequence = c.messageSequence ∧ i.isClient = c.isClient) := by
      intro i hi hk
      have hdis := (List.nodup_append.mp hnd).2.2
      have h1 : i.key ∈ h.cache.map handshakeCacheItem.key := List.mem_map_of_mem _ hi
      have h2 : i.key ∈ (c :: cs).map pushCall.key := by
        have : i.key = c.key := by
          simp [handshakeCacheItem.key, pushCall.key, hk.1, hk.2]
        rw [this]
        simp
      exact hdis h1 h2
    have hp := push_of_fresh h c.data c.messageSequence c.typ c.isClient hfree
    rw [pushAll_cons, hp]
    have hitem : (⟨c.typ, c.isClient, c.messageSequence, c.data⟩ : handshakeCacheItem)
        = c.item := rfl
    rw [hitem]
    have hnd2 : ((h.cache ++ [c.item]).map handshakeCacheItem.key
        ++ cs.map pushCall.key).Nodup := by
      have : (h.cache ++ [c.item]).map handshakeCacheItem.key ++ cs.map pushCall.key
          = h.cache.map handshakeCacheItem.key ++ (c :: cs).map pushCall.key := by
        simp [handshakeCacheItem.key, pushCall.key, pushCall.item]
      rw [this]
      exact hnd
    have := ih ⟨h.cache ++ [c.item]⟩ hnd2
    rw [this]
    simp

theorem pushAll_new_cache (calls : List pushCall)
    (hnd : (calls.map pushCall.key).Nodup) :
    (pushAll newHandshakeCache calls).cache = calls.map pushCall.item := by
  have := pushAll_cache_of_keys_nodup calls newHandshakeCache (by simpa [newHandshakeCache] using hnd)
  simpa [newHandshakeCache] using this

theorem pullOne_perm (l1 l2 : List handshakeCacheItem) (hperm : l1.Perm l2)
    (hnd : (l1.map handshakeCacheItem.key).Nodup) (r : handshakeCachePullRule) :
    pullOne l1 r = pullOne l2 r := by
  cases h1 : pullOne l1 r with
  | none =>
    have hno := (pullOne_eq_none_iff l1 r).mp h1
    symm
    rw [pullOne_eq_none_iff]
    intro c hc
    exact hno c (hperm.mem_iff.mpr hc)
  | some x =>
    obtain ⟨hx1, hxm, hxmax⟩ := pullOne_some_spec l1 r x h1
    cases h2 : pullOne l2 r with
    | none =>
      have hno := (pullOne_eq_none_iff l2 r).mp h2
      exact absurd hxm (hno x (hperm.mem_iff.mp hx1))
    | some y =>
      obtain ⟨hy2, hym, hymax⟩ := pullOne_some_spec l2 r y h2
      have hy1 : y ∈ l1 := hperm.mem_iff.mpr hy2
      have hle1 := hxmax y hy1 hym
      have hle2 := hymax x (hperm.mem_iff.mp hx1) hxm
      have hkey : x.key = y.key := by
        rw [key_eq_iff]
        exact ⟨le_antisymm hle2 hle1, hxm.2.trans hym.2.symm⟩
      rw [List.inj_on_of_nodup_map hnd hx1 hy1 hkey]

theorem pull_perm (h1 h2 : handshakeCache) (hperm : h1.cache.Perm h2.cache)
    (hnd : (h1.cache.map handshakeCacheItem.key).Nodup)
    (rules : List handshakeCachePullRule) : h1.pull rules = h2.pull rules := by
  rw [pull_eq_map, pull_eq_map]
  exact List.map_congr_left (fun r _ => pullOne_perm h1.cache h2.cache hperm hnd r)

theorem pushAll_perm_pull (calls1 calls2 : List pushCall) (hperm : calls1.Perm calls2)
    (hnd : (calls1.map pushCall.key).Nodup) (rules : List handshakeCachePullRule) :
    (pushAll newHandshakeCache calls1).pull rules
      = (pushAll newHandshakeCache calls2).pull rules := by
  have hnd2 : (calls2.map pushCall.key).Nodup :=
    ((hperm.map pushCall.key).nodup_iff).mp hnd
  apply pull_perm
  · rw [pushAll_new_cache calls1 hnd, pushAll_new_cache calls2 hnd2]
    exact hperm.map _
  · rw [pushAll_new_cache calls1 hnd, List.map_map]
    exact hnd

/-- C7. `sessionHash` does not depend on the order of the pushes: two sequences
of `push` calls on a new cache that are permutations of each other, with pairwise
different (messageSequence, isClient) pairs, give the same `sessionHash` result
for every hash function. -/
theorem sessionHash_push_order_invariant {σ : Type} (hf : hashFunc σ)
    (calls1 calls2 : List pushCall) (hperm : calls1.Perm calls2)
    (hnd : (calls1.map (fun c => (c.messageSequence, c.isClient))).Nodup) :
    (pushAll newHandshakeCache calls1).sessionHash hf
      = (pushAll newHandshakeCache calls2).sessionHash hf := by
  unfold handshakeCache.sessionHash
  rw [pushAll_perm_pull calls1 calls2 hperm hnd sessionHashRules]

theorem sessionHash_push_order_invariant_witness :
    ([⟨[2, 2], 0, handshakeTypeServerHello, false⟩,
        ⟨[1], 0, handshakeTypeClientHello, true⟩] : List pushCall).Perm
        [⟨[1], 0, handshakeTypeClientHello, true⟩,
          ⟨[2, 2], 0, handshakeTypeServerHello, false⟩] ∧
      (pushAll newHandshakeCache
          [⟨[2, 2], 0, handshakeTypeServerHello, false⟩,
            ⟨[1], 0, handshakeTypeClientHello, true⟩]).sessionHash sampleHash
        = (pushAll newHandshakeCache
          [⟨[1], 0, handshakeTypeClientHello, true⟩,
            ⟨[2, 2], 0, handshakeTypeServerHello, false⟩]).sessionHash sampleHash ∧
      (pushAll newHandshakeCache
          [⟨[2, 2], 0, handshakeTypeServerHello, false⟩,
            ⟨[1], 0, handshakeTypeClientHello, true⟩]).sessionHash sampleHash
        = ([1, 2, 2], none) :=
  ⟨List.Perm.swap _ _ _,
    sessionHash_push_order_invariant sampleHash _ _ (List.Perm.swap _ _ _) (by decide),
    rfl⟩

theorem pullOne_of_single_match (l : List handshakeCacheItem) (r : handshakeCachePullRule)
    (a : handshakeCacheItem) (ha : a ∈ l) (ham : a.typ = r.typ ∧ a.isClient = r.isClient)
    (hsingle : ∀ c ∈ l, c.typ = r.typ ∧ c.isClient = r.isClient → c = a) :
    pullOne l r = some a := by
  cases h1 : pullOne l r with
  | none => exact absurd ham ((pullOne_eq_none_iff l r).mp h1 a ha)
  | some x =>
    obtain ⟨hx, hxm, _⟩ := pullOne_some_spec l r x h1
    rw [hsingle x hx hxm]

/-- C8. The storage order has no bearing on queries: two sequences of `push`
calls on a new cache that are permutations of each other, with pairwise
different (messageSequence, isClient) pairs, give the same `pullAndMerge` bytes
for every rule list. And in any cache where `a` is the only stored match of
`ruleA` and `b` the only stored match of `ruleB`, wherever the two sit,
`pullAndMerge [ruleA, ruleB]` is the data of `a` followed by the data of `b`. -/
theorem pullAndMerge_storage_order_irrelevant :
    (∀ (rules : List handshakeCachePullRule) (calls1 calls2 : List pushCall),
        calls1.Perm calls2 →
        (calls1.map (fun c => (c.messageSequence, c.isClient))).Nodup →
          (pushAll newHandshakeCache calls1).pullAndMerge rules
            = (pushAll newHandshakeCache calls2).pullAndMerge rules) ∧
      (∀ (h : handshakeCache) (ruleA ruleB : handshakeCachePullRule)
        (a b : handshakeCacheItem),
        a ∈ h.cache → (a.typ = ruleA.typ ∧ a.isClient = ruleA.isClient) →
        (∀ c ∈ h.cache, c.typ = ruleA.typ ∧ c.isClient = ruleA.isClient → c = a) →
        b ∈ h.cache → (b.typ = ruleB.typ ∧ b.isClient = ruleB.isClient) →
        (∀ c ∈ h.cache, c.typ = ruleB.typ ∧ c.isClient = ruleB.isClient → c = b) →
          h.pullAndMerge [ruleA, ruleB] = a.data ++ b.data) := by
  constructor
  · intro rules calls1 calls2 hperm hnd
    unfold handshakeCache.pullAndMerge
    rw [pushAll_perm_pull calls1 calls2 hperm hnd rules]
  · intro h ruleA ruleB a b ha ham hasingle hb hbm hbsingle
    unfold handshakeCache.pullAndMerge
    rw [pull_eq_map, foldl_mergeBody]
    simp only [List.map_cons, List.map_nil,
      pullOne_of_single_match h.cache ruleA a ha ham hasingle,
      pullOne_of_single_match h.cache ruleB b hb hbm hbsingle,
      mergedData_cons_some, mergedData_nil, List.nil_append, List.append_nil]

theorem pullAndMerge_storage_order_irrelevant_witness :
    ([⟨[2, 2], 0, handshakeTypeServerHello, false⟩,
        ⟨[1], 0, handshakeTypeClientHello, true⟩] : List pushCall).Perm
        [⟨[1], 0, handshakeTypeClientHello, true⟩,
          ⟨[2, 2], 0, handshakeTypeServerHello, false⟩] ∧
      (pushAll newHandshakeCache
          [⟨[2, 2], 0, handshakeTypeServerHello, false⟩,
            ⟨[1], 0, handshakeTypeClientHello, true⟩]).pullAndMerge
          [⟨handshakeTypeClientHello, true⟩, ⟨handshakeTypeServerHello, false⟩]
        = (pushAll newHandshakeCache
          [⟨[1], 0, handshakeTypeClientHello, true⟩,
            ⟨[2, 2], 0, handshakeTypeServerHello, false⟩]).pullAndMerge
          [⟨handshakeTypeClientHello, true⟩, ⟨handshakeTypeServerHello, false⟩] ∧
      (pushAll newHandshakeCache
          [⟨[2, 2], 0, handshakeTypeServerHello, false⟩,
            ⟨[1], 0, handshakeTypeClientHello, true⟩]).pullAndMerge
          [⟨handshakeTypeClientHello, true⟩, ⟨handshakeTypeServerHello, false⟩]
        = [1] ++ [2, 2] ∧
      (pushAll newHandshakeCache
          [⟨[1], 0, handshakeTypeClientHello, true⟩,
            ⟨[2, 2], 0, handshakeTypeServerHello, false⟩]).pullAndMerge
          [⟨handshakeTypeClientHello, true⟩, ⟨handshakeTypeServerHello, false⟩]
        = [1] ++ [2, 2] :=
  ⟨List.Perm.swap _ _ _,
    pullAndMerge_storage_order_irrelevant.1 _ _ _ (List.Perm.swap _ _ _) (by decide),
    pullAndMerge_storage_order_irrelevant.2
      (pushAll newHandshakeCache
        [⟨[2, 2], 0, handshakeTypeServerHello, false⟩,
          ⟨[1], 0, handshakeTypeClientHello, true⟩])
      ⟨handshakeTypeClientHello, true⟩ ⟨handshakeTypeServerHello, false⟩
      ⟨handshakeTypeClientHello, true, 0, [1]⟩ ⟨handshakeTypeServerHello, false, 0, [2, 2]⟩
      (by decide) (by decide) (by decide) (by decide) (by decide) (by decide),
    pullAndMerge_storage_order_irrelevant.2
      (pushAll newHandshakeCache
        [⟨[1], 0, handshakeTypeClientHello, true⟩,
          ⟨[2, 2], 0, handshakeTypeServerHello, false⟩])
      ⟨handshakeTypeClientHello, true⟩ ⟨handshakeTypeServerHello, false⟩
      ⟨handshakeTypeClientHello, true, 0, [1]⟩ ⟨handshakeTypeServerHello, false, 0, [2, 2]⟩
      (by decide) (by decide) (by decide) (by decide) (by decide) (by decide)⟩

/-! ## init -/

/-- C10. When the key derivation yields `keys`, `init` as client builds the key
state from (clientWriteKey, clientWriteIV, serverWriteKey, serverWriteIV) and
`init` as server from (serverWriteKey, serverWriteIV, clientWriteKey,
clientWriteIV), in that order as local key, local IV, remote key, remote IV. With
the constructor of the spec the stored fields are exactly those values, so the
two ends mirror each other: the local pair of one is the remote pair of the
other. -/
theorem init_role_assignment {σ : Type} (env : collaborators σ)
    (c : cipherSuiteTLSEcdheEcdsaWithAes128GcmSha256)
    (masterSecret clientRandom serverRandom : Bytes) (keys : encryptionKeys)
    (hkeys : env.prfEncryptionKeys masterSecret clientRandom serverRandom 0 16 4
      (c.hashFunc env) = Except.ok keys) :
    (c.init env masterSecret clientRandom serverRandom true).1.gcm
        = (env.newCryptoGCM keys.clientWriteKey keys.clientWriteIV
            keys.serverWriteKey keys.serverWriteIV).toOption ∧
      (c.init env masterSecret clientRandom serverRandom false).1.gcm
        = (env.newCryptoGCM keys.serverWriteKey keys.serverWriteIV
            keys.clientWriteKey keys.clientWriteIV).toOption ∧
      (env.newCryptoGCM = newCryptoGCM →
        c.init env masterSecret clientRandom serverRandom true
          = (⟨some ⟨keys.clientWriteKey, keys.clientWriteIV,
              keys.serverWriteKey, keys.serverWriteIV⟩⟩, none) ∧
        c.init env masterSecret clientRandom serverRandom false
          = (⟨some ⟨keys.serverWriteKey, keys.serverWriteIV,
              keys.clientWriteKey, keys.clientWriteIV⟩⟩, none) ∧
        ∀ gc gs : cryptoGCM,
          (c.init env masterSecret clientRandom serverRandom true).1.gcm = some gc →
          (c.init env masterSecret clientRandom serverRandom false).1.gcm = some gs →
            gc.localKey = gs.remoteKey ∧ gc.localWriteIV = gs.remoteWriteIV ∧
            gc.remoteKey = gs.localKey ∧ gc.remoteWriteIV = gs.localWriteIV) := by
  have hk : env.prfEncryptionKeys masterSecret clientRandom serverRandom
      prfMacLen prfKeyLen prfIvLen (c.hashFunc env) = Except.ok keys := hkeys
  have htrue : (c.init env masterSecret clientRandom serverRandom true).1.gcm
      = (env.newCryptoGCM keys.clientWriteKey keys.clientWriteIV
          keys.serverWriteKey keys.serverWriteIV).toOption := by
    unfold cipherSuiteTLSEcdheEcdsaWithAes128GcmSha256.init
    rw [hk]
    simp only [if_true]
    cases env.newCryptoGCM keys.clientWriteKey keys.clientWriteIV
      keys.serverWriteKey keys.serverWriteIV <;> rfl
  have hfalse : (c.init env masterSecret clientRandom serverRandom false).1.gcm
      = (env.newCryptoGCM keys.serverWriteKey keys.serverWriteIV
          keys.clientWriteKey keys.clientWriteIV).toOption := by
    unfold cipherSuiteTLSEcdheEcdsaWithAes128GcmSha256.init
    rw [hk]
    simp only [Bool.false_eq_true, if_false]
    cases env.newCryptoGCM keys.serverWriteKey keys.serverWriteIV
      keys.clientWriteKey keys.clientWriteIV <;> rfl
  refine ⟨htrue, hfalse, ?_⟩
  intro hctor
  have h1 : c.init env masterSecret clientRandom serverRandom true
      = (⟨some ⟨keys.clientWriteKey, keys.clientWriteIV,
          keys.serverWriteKey, keys.serverWriteIV⟩⟩, none) := by
    unfold cipherSuiteTLSEcdheEcdsaWithAes128GcmSha256.init
    rw [hk, hctor]
    rfl
  have h2 : c.init env masterSecret clientRandom serverRandom false
      = (⟨some ⟨keys.serverWriteKey, keys.serverWriteIV,
          keys.clientWriteKey, keys.clientWriteIV⟩⟩, none) := by
    unfold cipherSuiteTLSEcdheEcdsaWithAes128GcmSha256.init
    rw [hk, hctor]
    rfl
  refine ⟨h1, h2, ?_⟩
  intro gc gs hgc hgs
  rw [h1] at hgc
  rw [h2] at hgs
  simp only [Option.some.injEq] at hgc hgs
  subst hgc
  subst hgs
  exact ⟨rfl, rfl, rfl, rfl⟩

theorem init_role_assignment_witness :
    sampleEnv.prfEncryptionKeys [1, 2, 3] [10, 11, 12, 13, 14] [20, 21, 22, 23, 24] 0 16 4
        ((cipherSuiteTLSEcdheEcdsaWithAes128GcmSha256.mk none).hashFunc sampleEnv)
        = Except.ok ⟨[1, 2, 3, 10, 11, 12, 13, 14], [10, 11, 12, 13],
            [1, 2, 3, 20, 21, 22, 23, 24], [20, 21, 22, 23]⟩ ∧
      ((cipherSuiteTLSEcdheEcdsaWithAes128GcmSha256.mk none).init sampleEnv
          [1, 2, 3] [10, 11, 12, 13, 14] [20, 21, 22, 23, 24] true).1.gcm
        = some ⟨[1, 2, 3, 10, 11, 12, 13, 14], [10, 11, 12, 13],
            [1, 2, 3, 20, 21, 22, 23, 24], [20, 21, 22, 23]⟩ ∧
      ((cipherSuiteTLSEcdheEcdsaWithAes128GcmSha256.mk none).init sampleEnv
          [1, 2, 3] [10, 11, 12, 13, 14] [20, 21, 22, 23, 24] false).1.gcm
        = some ⟨[1, 2, 3, 20, 21, 22, 23, 24], [20, 21, 22, 23],
            [1, 2, 3, 10, 11, 12, 13, 14], [10, 11, 12, 13]⟩ :=
  ⟨rfl,
    (init_role_assignment sampleEnv ⟨none⟩ [1, 2, 3] [10, 11, 12, 13, 14]
      [20, 21, 22, 23, 24] _ rfl).1,
    (init_role_assignment sampleEnv ⟨none⟩ [1, 2, 3] [10, 11, 12, 13, 14]
      [20, 21, 22, 23, 24] _ rfl).2.1⟩

/-! ## encrypt, decrypt and the key state -/

theorem init_of_keys {σ : Type} (env : collaborators σ)
    (c : cipherSuiteTLSEcdheEcdsaWithAes128GcmSha256)
    (masterSecret clientRandom serverRandom : Bytes) (isClient : Bool) (keys : encryptionKeys)
    (hctor : env.newCryptoGCM = newCryptoGCM)
    (hkeys : env.prfEncryptionKeys masterSecret clientRandom serverRandom 0 16 4
      env.sha256New = Except.ok keys) :
    c.init env masterSecret clientRandom serverRandom isClient
      = (⟨some (if isClient then
            ⟨keys.clientWriteKey, keys.clientWriteIV, keys.serverWriteKey, keys.serverWriteIV⟩
          else
            ⟨keys.serverWriteKey, keys.serverWriteIV, keys.clientWriteKey, keys.clientWriteIV⟩)⟩,
          none) := by
  have hk : env.prfEncryptionKeys masterSecret clientRandom serverRandom
      prfMacLen prfKeyLen prfIvLen (c.hashFunc env) = Except.ok keys := hkeys
  unfold cipherSuiteTLSEcdheEcdsaWithAes128GcmSha256.init
  rw [hk, hctor]
  cases isClient <;> rfl

theorem init_error_or_some {σ : Type} (env : collaborators σ)
    (c : cipherSuiteTLSEcdheEcdsaWithAes128GcmSha256)
    (masterSecret clientRandom serverRandom : Bytes) (isClient : Bool)
    (hok : (c.init env masterSecret clientRandom serverRandom isClient).2 = none) :
    ∃ g, c.init env masterSecret clientRandom serverRandom isClient = (⟨some g⟩, none) := by
  unfold cipherSuiteTLSEcdheEcdsaWithAes128GcmSha256.init at hok ⊢
  cases hp : env.prfEncryptionKeys masterSecret clientRandom serverRandom
      prfMacLen prfKeyLen prfIvLen (c.hashFunc env) with
  | error err => rw [hp] at hok; simp at hok
  | ok keys =>
    rw [hp] at hok
    simp only at hok ⊢
    cases hm : (if isClient = true then
        env.newCryptoGCM keys.clientWriteKey keys.clientWriteIV
          keys.serverWriteKey keys.serverWriteIV
      else
        env.newCryptoGCM keys.serverWriteKey keys.serverWriteIV
          keys.clientWriteKey keys.clientWriteIV) with
    | error err => rw [hm] at hok; simp at hok
    | ok g => exact ⟨g, rfl⟩

theorem init_keys_of_ok {σ : Type} (env : collaborators σ)
    (c : cipherSuiteTLSEcdheEcdsaWithAes128GcmSha256)
    (masterSecret clientRandom serverRandom : Bytes) (isClient : Bool)
    (hok : (c.init env masterSecret clientRandom serverRandom isClient).2 = none) :
    ∃ keys, env.prfEncryptionKeys masterSecret clientRandom serverRandom 0 16 4
      env.sha256New = Except.ok keys := by
  cases hp : env.prfEncryptionKeys masterSecret clientRandom serverRandom 0 16 4
      env.sha256New with
  | ok keys => exact ⟨keys, rfl⟩
  | error err =>
    have hk : env.prfEncryptionKeys masterSecret clientRandom serverRandom
        prfMacLen prfKeyLen prfIvLen (c.hashFunc env) = Except.error err := hp
    unfold cipherSuiteTLSEcdheEcdsaWithAes128GcmSha256.init at hok
    rw [hk] at hok
    simp at hok

theorem encrypt_of_some (gcm : cryptoGCMMethods) (g : cryptoGCM) (pkt : recordLayer)
    (raw : Bytes) :
    (cipherSuiteTLSEcdheEcdsaWithAes128GcmSha256.mk (some g)).encrypt gcm pkt raw
      = gcm.encrypt g pkt raw := rfl

theorem decrypt_of_some (gcm : cryptoGCMMethods) (g : cryptoGCM) (raw : Bytes) :
    (cipherSuiteTLSEcdheEcdsaWithAes128GcmSha256.mk (some g)).decrypt gcm raw
      = gcm.decrypt g raw := rfl

theorem sampleGCM_opensWhatItSealed : sampleGCM.opensWhatItSealed := by
  intro g1 g2 pkt raw hk hiv
  refine ⟨(g1.localKey ++ g1.localWriteIV) ++ raw, rfl, ?_⟩
  simp only [sampleGCM, ← hk, ← hiv]
  rw [if_pos (List.take_left' rfl), List.drop_left' rfl]

/-- C11. Round trip. Let A be initialized as client without error, let B be
initialized as server from the same master secret and randoms (its `init` then
returns no error either), key states being built by the constructor of the spec,
and let the AEAD open under the same key and IV what it sealed. Then B decrypts
what A encrypted to the plaintext, and A decrypts what B encrypted to the
plaintext, for every record and plaintext. -/
theorem encrypt_decrypt_round_trip {σ : Type} (env : collaborators σ)
    (gcm : cryptoGCMMethods) (cA cB : cipherSuiteTLSEcdheEcdsaWithAes128GcmSha256)
    (masterSecret clientRandom serverRandom : Bytes) (pkt : recordLayer) (m : Bytes)
    (hctor : env.newCryptoGCM = newCryptoGCM)
    (hA : (cA.init env masterSecret clientRandom serverRandom true).2 = none)
    (haead : gcm.opensWhatItSealed) :
    (cB.init env masterSecret clientRandom serverRandom false).2 = none ∧
    (∃ sealed,
        (cA.init env masterSecret clientRandom serverRandom true).1.encrypt gcm pkt m
          = (sealed, none) ∧
        (cB.init env masterSecret clientRandom serverRandom false).1.decrypt gcm sealed
          = (m, none)) ∧
      (∃ sealed,
        (cB.init env masterSecret clientRandom serverRandom false).1.encrypt gcm pkt m
          = (sealed, none) ∧
        (cA.init env masterSecret clientRandom serverRandom true).1.decrypt gcm sealed
          = (m, none)) := by
  obtain ⟨keys, hkeys⟩ := init_keys_of_ok env cA masterSecret clientRandom serverRandom true hA
  rw [init_of_keys env cA masterSecret clientRandom serverRandom true keys hctor hkeys,
    init_of_keys env cB masterSecret clientRandom serverRandom false keys hctor hkeys]
  simp only [if_true, Bool.false_eq_true, if_false, encrypt_of_some, decrypt_of_some]
  exact ⟨trivial, haead _ _ pkt m rfl rfl, haead _ _ pkt m rfl rfl⟩

theorem encrypt_decrypt_round_trip_witness :
    (newCipherSuite.init sampleEnv [1, 2, 3] [10, 11, 12, 13, 14] [20, 21, 22, 23, 24]
        true).2 = none ∧
      (newCipherSuite.init sampleEnv [1, 2, 3] [10, 11, 12, 13, 14] [20, 21, 22, 23, 24]
        false).2 = none ∧
      (∃ sealed,
        (newCipherSuite.init sampleEnv [1, 2, 3] [10, 11, 12, 13, 14] [20, 21, 22, 23, 24]
            true).1.encrypt sampleGCM ⟨7⟩ [100, 101]
          = (sealed, none) ∧
        (newCipherSuite.init sampleEnv [1, 2, 3] [10, 11, 12, 13, 14] [20, 21, 22, 23, 24]
            false).1.decrypt sampleGCM sealed
          = ([100, 101], none)) :=
  ⟨rfl, rfl,
    (encrypt_decrypt_round_trip sampleEnv sampleGCM newCipherSuite newCipherSuite
      [1, 2, 3] [10, 11, 12, 13, 14] [20, 21, 22, 23, 24] ⟨7⟩ [100, 101]
      rfl rfl sampleGCM_opensWhatItSealed).2.1⟩

/-- C12. On a suite that is not initialized, `encrypt` and `decrypt` return the
not-initialized error and no bytes; the result is the same whatever the AEAD
methods are, so they are not reached; and the suite after the call is the suite
before it, still not initialized. -/
theorem uninitialized_encrypt_decrypt_rejected {σ : Type} (env : collaborators σ)
    (gcm : cryptoGCMMethods) (c : cipherSuiteTLSEcdheEcdsaWithAes128GcmSha256)
    (pkt : recordLayer) (raw : Bytes) (hun : c.isInitialized = false) :
    c.encrypt gcm pkt raw
        = ([], some "CipherSuite has not been initialized, unable to encrypt") ∧
      c.decrypt gcm raw
        = ([], some "CipherSuite has not been initialized, unable to decrypt ") ∧
      (∀ other : cryptoGCMMethods,
        c.encrypt other pkt raw = c.encrypt gcm pkt raw ∧
        c.decrypt other raw = c.decrypt gcm raw) ∧
      runCall env c (suiteCall.encrypt pkt raw) = c ∧
      runCall env c (suiteCall.decrypt raw) = c ∧
      (runCall env c (suiteCall.encrypt pkt raw)).isInitialized = false ∧
      (runCall env c (suiteCall.decrypt raw)).isInitialized = false := by
  have he : ∀ g : cryptoGCMMethods, c.encrypt g pkt raw
      = ([], some "CipherSuite has not been initialized, unable to encrypt") := by
    intro g
    unfold cipherSuiteTLSEcdheEcdsaWithAes128GcmSha256.encrypt
    rw [hun]
    rfl
  have hd : ∀ g : cryptoGCMMethods, c.decrypt g raw
      = ([], some "CipherSuite has not been initialized, unable to decrypt ") := by
    intro g
    unfold cipherSuiteTLSEcdheEcdsaWithAes128GcmSha256.decrypt
    rw [hun]
    rfl
  refine ⟨he gcm, hd gcm, ?_, rfl, rfl, hun, hun⟩
  intro other
  exact ⟨(he other).trans (he gcm).symm, (hd other).trans (hd gcm).symm⟩

theorem uninitialized_encrypt_decrypt_rejected_witness :
    newCipherSuite.isInitialized = false ∧
      newCipherSuite.encrypt constantGCM ⟨0⟩ [1, 2, 3]
        = ([], some "CipherSuite has not been initialized, unable to encrypt") ∧
      newCipherSuite.decrypt constantGCM [1, 2, 3]
        = ([], some "CipherSuite has not been initialized, unable to decrypt ") :=
  ⟨rfl,
    (uninitialized_encrypt_decrypt_rejected sampleEnv constantGCM newCipherSuite
      ⟨0⟩ [1, 2, 3] rfl).1,
    (uninitialized_encrypt_decrypt_rejected sampleEnv constantGCM newCipherSuite
      ⟨0⟩ [1, 2, 3] rfl).2.1⟩

/-- C13. `isInitialized` is false on a new suite, and true on the suite left by
any `init` call that returns no error, whatever the secrets, the randoms, the
role and the suite it was called on. -/
theorem isInitialized_after_init :
    newCipherSuite.isInitialized = false ∧
      ∀ {σ : Type} (env : collaborators σ)
        (c : cipherSuiteTLSEcdheEcdsaWithAes128GcmSha256)
        (masterSecret clientRandom serverRandom : Bytes) (isClient : Bool),
        (c.init env masterSecret clientRandom serverRandom isClient).2 = none →
          (c.init env masterSecret clientRandom serverRandom isClient).1.isInitialized
            = true := by
  refine ⟨rfl, ?_⟩
  intro σ env c masterSecret clientRandom serverRandom isClient hok
  obtain ⟨g, hg⟩ := init_error_or_some env c masterSecret clientRandom serverRandom isClient hok
  rw [hg]
  rfl

theorem isInitialized_after_init_witness :
    (newCipherSuite.init sampleEnv [1, 2, 3] [10, 11, 12, 13, 14] [20, 21, 22, 23, 24]
        false).2 = none ∧
      (newCipherSuite.init sampleEnv [1, 2, 3] [10, 11, 12, 13, 14] [20, 21, 22, 23, 24]
        false).1.isInitialized = true :=
  ⟨rfl,
    isInitialized_after_init.2 sampleEnv newCipherSuite
      [1, 2, 3] [10, 11, 12, 13, 14] [20, 21, 22, 23, 24] false rfl⟩

theorem init_of_prf_error {σ : Type} (env : collaborators σ)
    (c : cipherSuiteTLSEcdheEcdsaWithAes128GcmSha256)
    (masterSecret clientRandom serverRandom : Bytes) (isClient : Bool) (err : Error)
    (hprf : env.prfEncryptionKeys masterSecret clientRandom serverRandom 0 16 4
      env.sha256New = Except.error err) :
    c.init env masterSecret clientRandom serverRandom isClient = (c, some err) := by
  have hk : env.prfEncryptionKeys masterSecret clientRandom serverRandom
      prfMacLen prfKeyLen prfIvLen (c.hashFunc env) = Except.error err := hprf
  unfold cipherSuiteTLSEcdheEcdsaWithAes128GcmSha256.init
  rw [hk]

theorem init_receiver_irrelevant {σ : Type} (env : collaborators σ)
    (c c2 : cipherSuiteTLSEcdheEcdsaWithAes128GcmSha256)
    (masterSecret clientRandom serverRandom : Bytes) (isClient : Bool)
    (hok : (c.init env masterSecret clientRandom serverRandom isClient).2 = none) :
    c2.init env masterSecret clientRandom serverRandom isClient
      = c.init env masterSecret clientRandom serverRandom isClient := by
  cases hp : env.prfEncryptionKeys masterSecret clientRandom serverRandom 0 16 4
      env.sha256New with
  | error err =>
    rw [init_of_prf_error env c masterSecret clientRandom serverRandom isClient err hp] at hok
    simp at hok
  | ok keys =>
    have hk : env.prfEncryptionKeys masterSecret clientRandom serverRandom
        prfMacLen prfKeyLen prfIvLen (c.hashFunc env) = Except.ok keys := hp
    have hk2 : env.prfEncryptionKeys masterSecret clientRandom serverRandom
        prfMacLen prfKeyLen prfIvLen (c2.hashFunc env) = Except.ok keys := hp
    unfold cipherSuiteTLSEcdheEcdsaWithAes128GcmSha256.init
    rw [hk, hk2]

theorem runCall_of_keepsKeys {σ : Type} (env : collaborators σ)
    (c0 : cipherSuiteTLSEcdheEcdsaWithAes128GcmSha256)
    (masterSecret clientRandom serverRandom : Bytes) (isClient : Bool) (call : suiteCall)
    (hinit : (c0.init env masterSecret clientRandom serverRandom isClient).2 = none)
    (hcall : call.keepsKeys env masterSecret clientRandom serverRandom isClient) :
    runCall env (c0.init env masterSecret clientRandom serverRandom isClient).1 call
      = (c0.init env masterSecret clientRandom serverRandom isClient).1 := by
  cases call with
  | encrypt pkt raw => rfl
  | decrypt raw => rfl
  | init ms cr sr ic =>
    rcases hcall with ⟨h1, h2, h3, h4⟩ | ⟨err, herr⟩
    · subst h1; subst h2; subst h3; subst h4
      show ((c0.init env ms cr sr ic).1.init env ms cr sr ic).1 = (c0.init env ms cr sr ic).1
      rw [init_receiver_irrelevant env c0 _ ms cr sr ic hinit]
    · show ((c0.init env masterSecret clientRandom serverRandom isClient).1.init
          env ms cr sr ic).1 = _
      rw [init_of_prf_error env _ ms cr sr ic err herr]

/-- C14, the claim as written fails: on a suite initialized without error, a
second `init` with another master secret succeeds and leaves other key material. -/
theorem reinit_replaces_key_material :
    (newCipherSuite.init sampleEnv [1, 2, 3] [10, 11, 12, 13] [20, 21, 22, 23] true).2 = none ∧
      (runCalls sampleEnv
          (newCipherSuite.init sampleEnv [1, 2, 3] [10, 11, 12, 13] [20, 21, 22, 23] true).1
          [suiteCall.init [9, 9, 9] [10, 11, 12, 13] [20, 21, 22, 23] true]).gcm
        ≠ (newCipherSuite.init sampleEnv [1, 2, 3] [10, 11, 12, 13] [20, 21, 22, 23]
            true).1.gcm := by
  decide

/-- C14, amended. Once an `init` has returned no error, any sequence of later
calls made of `encrypt`, `decrypt`, `init` with the same secrets, randoms and
role, and `init` whose key derivation fails leaves the suite as that `init`
left it: the same key material, still initialized. -/
theorem key_state_kept_after_init {σ : Type} (env : collaborators σ)
    (c0 : cipherSuiteTLSEcdheEcdsaWithAes128GcmSha256)
    (masterSecret clientRandom serverRandom : Bytes) (isClient : Bool)
    (calls : List suiteCall)
    (hinit : (c0.init env masterSecret clientRandom serverRandom isClient).2 = none)
    (hcalls : ∀ call ∈ calls,
      call.keepsKeys env masterSecret clientRandom serverRandom isClient) :
    runCalls env (c0.init env masterSecret clientRandom serverRandom isClient).1 calls
        = (c0.init env masterSecret clientRandom serverRandom isClient).1 ∧
      (runCalls env (c0.init env masterSecret clientRandom serverRandom isClient).1
        calls).isInitialized = true := by
  have hrun : runCalls env (c0.init env masterSecret clientRandom serverRandom isClient).1 calls
      = (c0.init env masterSecret clientRandom serverRandom isClient).1 := by
    induction calls with
    | nil => rfl
    | cons call rest ih =>
      have h1 := runCall_of_keepsKeys env c0 masterSecret clientRandom serverRandom isClient
        call hinit (hcalls call (List.mem_cons_self _ _))
      unfold runCalls at ih ⊢
      rw [List.foldl_cons, h1]
      exact ih (fun d hd => hcalls d (List.mem_cons_of_mem _ hd))
  refine ⟨hrun, ?_⟩
  rw [hrun]
  obtain ⟨g, hg⟩ := init_error_or_some env c0 masterSecret clientRandom serverRandom isClient hinit
  rw [hg]
  rfl

theorem key_state_kept_after_init_witness :
    (newCipherSuite.init strictEnv [1, 2, 3] [10, 11, 12, 13] [20, 21, 22, 23] true).2 = none ∧
      runCalls strictEnv
          (newCipherSuite.init strictEnv [1, 2, 3] [10, 11, 12, 13] [20, 21, 22, 23] true).1
          [suiteCall.encrypt ⟨0⟩ [5], suiteCall.init [1, 2, 3] [10, 11, 12, 13] [20, 21, 22, 23] true,
            suiteCall.decrypt [6]]
        = (newCipherSuite.init strictEnv [1, 2, 3] [10, 11, 12, 13] [20, 21, 22, 23] true).1 :=
  ⟨rfl,
    (key_state_kept_after_init strictEnv newCipherSuite [1, 2, 3] [10, 11, 12, 13]
      [20, 21, 22, 23] true
      [suiteCall.encrypt ⟨0⟩ [5], suiteCall.init [1, 2, 3] [10, 11, 12, 13] [20, 21, 22, 23] true,
        suiteCall.decrypt [6]]
      rfl
      (by
        intro call hcall
        simp only [List.mem_cons, List.mem_singleton, List.not_mem_nil, or_false] at hcall
        rcases hcall with h | h | h
        · rw [h]; trivial
        · rw [h]; exact Or.inl ⟨rfl, rfl, rfl, rfl⟩
        · rw [h]; trivial)).1⟩

/-- C15. When the key derivation fails, `init` returns that error and the suite
after the call is the suite before it: a suite without keys stays without keys,
a suite with keys keeps them. -/
theorem init_derivation_error_keeps_state {σ : Type} (env : collaborators σ)
    (c : cipherSuiteTLSEcdheEcdsaWithAes128GcmSha256)
    (masterSecret clientRandom serverRandom : Bytes) (isClient : Bool) (err : Error)
    (hprf : env.prfEncryptionKeys masterSecret clientRandom serverRandom 0 16 4
      (c.hashFunc env) = Except.error err) :
    c.init env masterSecret clientRandom serverRandom isClient = (c, some err) ∧
      (c.init env masterSecret clientRandom serverRandom isClient).1.gcm = c.gcm ∧
      (c.init env masterSecret clientRandom serverRandom isClient).1.isInitialized
        = c.isInitialized := by
  have h := init_of_prf_error env c masterSecret clientRandom serverRandom isClient err hprf
  refine ⟨h, ?_, ?_⟩ <;> rw [h]

theorem init_derivation_error_keeps_state_witness :
    failingEnv.prfEncryptionKeys [1, 2, 3] [10] [20] 0 16 4
        ((cipherSuiteTLSEcdheEcdsaWithAes128GcmSha256.mk
          (some ⟨[1], [2], [3], [4]⟩)).hashFunc failingEnv)
        = Except.error "prf failed" ∧
      (cipherSuiteTLSEcdheEcdsaWithAes128GcmSha256.mk (some ⟨[1], [2], [3], [4]⟩)).init
          failingEnv [1, 2, 3] [10] [20] false
        = (⟨some ⟨[1], [2], [3], [4]⟩⟩, some "prf failed") ∧
      newCipherSuite.init failingEnv [1, 2, 3] [10] [20] true
        = (newCipherSuite, some "prf failed") :=
  ⟨rfl,
    (init_derivation_error_keeps_state failingEnv ⟨some ⟨[1], [2], [3], [4]⟩⟩
      [1, 2, 3] [10] [20] false "prf failed" rfl).1,
    (init_derivation_error_keeps_state failingEnv newCipherSuite
      [1, 2, 3] [10] [20] true "prf failed" rfl).1⟩

theorem init_depends_on_prf_point {σ : Type} (env env2 : collaborators σ)
    (c : cipherSuiteTLSEcdheEcdsaWithAes128GcmSha256)
    (masterSecret clientRandom serverRandom : Bytes) (isClient : Bool)
    (hhash : env2.sha256New = env.sha256New)
    (hctor : env2.newCryptoGCM = env.newCryptoGCM)
    (hpoint : env2.prfEncryptionKeys masterSecret clientRandom serverRandom 0 16 4
        env.sha256New
      = env.prfEncryptionKeys masterSecret clientRandom serverRandom 0 16 4
        env.sha256New) :
    c.init env2 masterSecret clientRandom serverRandom isClient
      = c.init env masterSecret clientRandom serverRandom isClient := by
  have h2 : env2.prfEncryptionKeys masterSecret clientRandom serverRandom
      prfMacLen prfKeyLen prfIvLen (c.hashFunc env2)
      = env.prfEncryptionKeys masterSecret clientRandom serverRandom
        prfMacLen prfKeyLen prfIvLen (c.hashFunc env) := by
    have : c.hashFunc env2 = c.hashFunc env := hhash
    rw [this]
    exact hpoint
  unfold cipherSuiteTLSEcdheEcdsaWithAes128GcmSha256.init
  rw [h2, hctor]

theorem init_of_prf_ok {σ : Type} (env : collaborators σ)
    (c : cipherSuiteTLSEcdheEcdsaWithAes128GcmSha256)
    (masterSecret clientRandom serverRandom : Bytes) (isClient : Bool) (keys : encryptionKeys)
    (hprf : env.prfEncryptionKeys masterSecret clientRandom serverRandom 0 16 4
      env.sha256New = Except.ok keys) :
    (∀ g, (if isClient then
          env.newCryptoGCM keys.clientWriteKey keys.clientWriteIV
            keys.serverWriteKey keys.serverWriteIV
        else
          env.newCryptoGCM keys.serverWriteKey keys.serverWriteIV
            keys.clientWriteKey keys.clientWriteIV) = Except.ok g →
        c.init env masterSecret clientRandom serverRandom isClient = (⟨some g⟩, none)) ∧
      (∀ e, (if isClient then
          env.newCryptoGCM keys.clientWriteKey keys.clientWriteIV
            keys.serverWriteKey keys.serverWriteIV
        else
          env.newCryptoGCM keys.serverWriteKey keys.serverWriteIV
            keys.clientWriteKey keys.clientWriteIV) = Except.error e →
        c.init env masterSecret clientRandom serverRandom isClient = (⟨none⟩, some e)) := by
  have hk : env.prfEncryptionKeys masterSecret clientRandom serverRandom
      prfMacLen prfKeyLen prfIvLen (c.hashFunc env) = Except.ok keys := hprf
  constructor
  · intro g hg
    unfold cipherSuiteTLSEcdheEcdsaWithAes128GcmSha256.init
    rw [hk]
    simp only [hg]
  · intro e he
    unfold cipherSuiteTLSEcdheEcdsaWithAes128GcmSha256.init
    rw [hk]
    simp only [he]

/-- C16. `init` calls the key derivation at one point: the three byte strings it
was given, MAC key length 0, key length 16, IV length 4 and the hash function of
the suite, which is SHA-256, for either role. What the derivation returns there
decides the call: an error there is the error `init` returns, with the suite left
as it was; keys there are the keys handed to the constructor, whose result `init`
stores and whose error it returns. What the derivation returns anywhere else has
no effect: two derivations that agree at that point give the same `init`. -/
theorem init_prf_arguments {σ : Type} (env : collaborators σ)
    (c : cipherSuiteTLSEcdheEcdsaWithAes128GcmSha256)
    (masterSecret clientRandom serverRandom : Bytes) :
    (∀ err, env.prfEncryptionKeys masterSecret clientRandom serverRandom 0 16 4
          env.sha256New = Except.error err →
        ∀ isClient : Bool,
          c.init env masterSecret clientRandom serverRandom isClient = (c, some err)) ∧
      (∀ keys, env.prfEncryptionKeys masterSecret clientRandom serverRandom 0 16 4
          env.sha256New = Except.ok keys →
        ∀ isClient : Bool,
          (∀ g, (if isClient then
                env.newCryptoGCM keys.clientWriteKey keys.clientWriteIV
                  keys.serverWriteKey keys.serverWriteIV
              else
                env.newCryptoGCM keys.serverWriteKey keys.serverWriteIV
                  keys.clientWriteKey keys.clientWriteIV) = Except.ok g →
            c.init env masterSecret clientRandom serverRandom isClient
              = (⟨some g⟩, none)) ∧
          (∀ e, (if isClient then
                env.newCryptoGCM keys.clientWriteKey keys.clientWriteIV
                  keys.serverWriteKey keys.serverWriteIV
              else
                env.newCryptoGCM keys.serverWriteKey keys.serverWriteIV
                  keys.clientWriteKey keys.clientWriteIV) = Except.error e →
            c.init env masterSecret clientRandom serverRandom isClient
              = (⟨none⟩, some e))) ∧
      (∀ env2 : collaborators σ,
        env2.sha256New = env.sha256New → env2.newCryptoGCM = env.newCryptoGCM →
        env2.prfEncryptionKeys masterSecret clientRandom serverRandom 0 16 4 env.sha256New
          = env.prfEncryptionKeys masterSecret clientRandom serverRandom 0 16 4
              env.sha256New →
        ∀ isClient : Bool,
          c.init env2 masterSecret clientRandom serverRandom isClient
            = c.init env masterSecret clientRandom serverRandom isClient) ∧
      c.hashFunc env = env.sha256New ∧
      prfMacLen = 0 ∧ prfKeyLen = 16 ∧ prfIvLen = 4 := by
  refine ⟨?_, ?_, ?_, rfl, rfl, rfl, rfl⟩
  · intro err herr isClient
    exact init_of_prf_error env c masterSecret clientRandom serverRandom isClient err herr
  · intro keys hkeys isClient
    exact init_of_prf_ok env c masterSecret clientRandom serverRandom isClient keys hkeys
  · intro env2 hhash hctor hpoint isClient
    exact init_depends_on_prf_point env env2 c masterSecret clientRandom serverRandom
      isClient hhash hctor hpoint

theorem init_prf_arguments_witness :
    strictEnv.prfEncryptionKeys [1, 2, 3] [10, 11, 12, 13, 14] [20, 21, 22, 23, 24] 0 16 4
        strictEnv.sha256New
        = Except.ok ⟨[1, 2, 3, 10, 11, 12, 13, 14], [10, 11, 12, 13],
            [1, 2, 3, 20, 21, 22, 23, 24], [20, 21, 22, 23]⟩ ∧
      strictEnv.prfEncryptionKeys [1, 2, 3] [10, 11, 12, 13, 14] [20, 21, 22, 23, 24] 0 32 4
        strictEnv.sha256New
        = Except.error "unsupported lengths" ∧
      strictEnv.prfEncryptionKeys [1, 2, 3] [20, 21, 22, 23, 24] [10, 11, 12, 13, 14] 0 16 4
        strictEnv.sha256New
        = Except.ok ⟨[1, 2, 3, 20, 21, 22, 23, 24], [20, 21, 22, 23],
            [1, 2, 3, 10, 11, 12, 13, 14], [10, 11, 12, 13]⟩ ∧
      newCipherSuite.init strictEnv [1, 2, 3] [10, 11, 12, 13, 14] [20, 21, 22, 23, 24] false
        = (⟨some ⟨[1, 2, 3, 20, 21, 22, 23, 24], [20, 21, 22, 23],
            [1, 2, 3, 10, 11, 12, 13, 14], [10, 11, 12, 13]⟩⟩, none) ∧
      (cipherSuiteTLSEcdheEcdsaWithAes128GcmSha256.mk (some ⟨[1], [2], [3], [4]⟩)).init
          failingEnv [1, 2, 3] [10] [20] true
        = (⟨some ⟨[1], [2], [3], [4]⟩⟩, some "prf failed") ∧
      (∀ isClient : Bool,
        newCipherSuite.init sampleEnv [1, 2, 3] [10, 11, 12, 13, 14] [20, 21, 22, 23, 24]
            isClient
          = newCipherSuite.init strictEnv [1, 2, 3] [10, 11, 12, 13, 14]
              [20, 21, 22, 23, 24] isClient) :=
  ⟨rfl, rfl, rfl,
    ((init_prf_arguments strictEnv newCipherSuite
      [1, 2, 3] [10, 11, 12, 13, 14] [20, 21, 22, 23, 24]).2.1 _ rfl false).1 _ rfl,
    (init_prf_arguments failingEnv ⟨some ⟨[1], [2], [3], [4]⟩⟩ [1, 2, 3] [10] [20]).1
      "prf failed" rfl true,
    (init_prf_arguments strictEnv newCipherSuite
      [1, 2, 3] [10, 11, 12, 13, 14] [20, 21, 22, 23, 24]).2.2.1 sampleEnv rfl rfl rfl⟩

/-! ## Which match `pull` returns -/

theorem pullOne_eq_lastMatch (l : List handshakeCacheItem) (r : handshakeCachePullRule)
    (hinc : (l.filter (fun c => decide (c.typ = r.typ ∧ c.isClient = r.isClient))).Pairwise
      (fun a b => a.messageSequence < b.messageSequence)) :
    pullOne l r = lastMatch l r := by
  induction l using List.reverseRecOn with
  | nil => rfl
  | append_singleton l c ih =>
    rw [List.filter_append, List.pairwise_append] at hinc
    obtain ⟨hl, _, hcross⟩ := hinc
    rw [pullOne_concat]
    unfold lastMatch
    rw [List.filter_append]
    by_cases hm : c.typ = r.typ ∧ c.isClient = r.isClient
    · have hfc : [c].filter (fun c => decide (c.typ = r.typ ∧ c.isClient = r.isClient)) = [c] := by
        simp [List.filter_cons, hm]
      rw [hfc, List.getLast?_concat]
      unfold pullStep
      rw [if_pos hm]
      cases hprev : pullOne l r with
      | none => rfl
      | some o =>
        obtain ⟨hol, hom, _⟩ := pullOne_some_spec l r o hprev
        have hof : o ∈ l.filter (fun c => decide (c.typ = r.typ ∧ c.isClient = r.isClient)) := by
          rw [List.mem_filter]
          exact ⟨hol, decide_eq_true hom⟩
        have hlt : o.messageSequence < c.messageSequence :=
          hcross o hof c (by rw [hfc]; exact List.mem_singleton_self c)
        simp [hlt]
    · have hfc : [c].filter (fun c => decide (c.typ = r.typ ∧ c.isClient = r.isClient)) = [] := by
        simp [List.filter_cons, hm]
      rw [hfc, List.append_nil]
      unfold pullStep
      rw [if_neg hm]
      exact ih hl

/-- C17. The comment on `pull` says that of several matches only the last one is
returned. The code does not do that: with ClientHello of the client pushed at
sequence 2 and then at sequence 0, both stored and both matching, the rule
yields the sequence-2 item, the first match in storage order, while the last
match is the sequence-0 item. -/
theorem pull_not_last_stored_match :
    (pushAll newHandshakeCache
        [⟨[2], 2, handshakeTypeClientHello, true⟩,
          ⟨[0], 0, handshakeTypeClientHello, true⟩]).pull [⟨handshakeTypeClientHello, true⟩]
        = [some ⟨handshakeTypeClientHello, true, 2, [2]⟩] ∧
      lastMatch (pushAll newHandshakeCache
        [⟨[2], 2, handshakeTypeClientHello, true⟩,
          ⟨[0], 0, handshakeTypeClientHello, true⟩]).cache ⟨handshakeTypeClientHello, true⟩
        = some ⟨handshakeTypeClientHello, true, 0, [0]⟩ ∧
      (pushAll newHandshakeCache
        [⟨[2], 2, handshakeTypeClientHello, true⟩,
          ⟨[0], 0, handshakeTypeClientHello, true⟩]).pull [⟨handshakeTypeClientHello, true⟩]
        ≠ [lastMatch (pushAll newHandshakeCache
            [⟨[2], 2, handshakeTypeClientHello, true⟩,
              ⟨[0], 0, handshakeTypeClientHello, true⟩]).cache
            ⟨handshakeTypeClientHello, true⟩] := by
  decide

/-- Where the comment on `pull` and its code agree. For a rule with at least one
stored match, `pull` returns at the position of the rule a matching entry of
greatest messageSequence; when the matching entries were stored in strictly
increasing messageSequence order, that entry is the last matching entry in
storage order. -/
theorem pull_last_match_when_sequences_increase (h : handshakeCache)
    (rules : List handshakeCachePullRule) (i : Nat) (r : handshakeCachePullRule)
    (hr : rules[i]? = some r) :
    ((∃ c ∈ h.cache, c.typ = r.typ ∧ c.isClient = r.isClient) →
        ∃ item, (h.pull rules)[i]? = some (some item) ∧ item ∈ h.cache ∧
          (item.typ = r.typ ∧ item.isClient = r.isClient) ∧
          ∀ c ∈ h.cache, c.typ = r.typ ∧ c.isClient = r.isClient →
            c.messageSequence ≤ item.messageSequence) ∧
      ((h.cache.filter (fun c => decide (c.typ = r.typ ∧ c.isClient = r.isClient))).Pairwise
          (fun a b => a.messageSequence < b.messageSequence) →
        (h.pull rules)[i]? = some (lastMatch h.cache r)) := by
  constructor
  · rintro ⟨c, hc, hcm⟩
    cases hone : pullOne h.cache r with
    | none => exact absurd hcm ((pullOne_eq_none_iff h.cache r).mp hone c hc)
    | some item =>
      obtain ⟨hmem, hm, hmax⟩ := pullOne_some_spec h.cache r item hone
      refine ⟨item, ?_, hmem, hm, hmax⟩
      rw [pull_getElem?, hr, Option.map_some', hone]
  · intro hinc
    rw [pull_getElem?, hr, Option.map_some', pullOne_eq_lastMatch h.cache r hinc]

theorem pull_last_match_when_sequences_increase_witness :
    ([⟨handshakeTypeServerHello, false⟩, ⟨handshakeTypeClientHello, true⟩] :
        List handshakeCachePullRule)[1]? = some ⟨handshakeTypeClientHello, true⟩ ∧
      ((pushAll newHandshakeCache
          [⟨[0], 0, handshakeTypeClientHello, true⟩, ⟨[5], 0, handshakeTypeServerHello, false⟩,
            ⟨[2], 2, handshakeTypeClientHello, true⟩]).pull
          [⟨handshakeTypeServerHello, false⟩, ⟨handshakeTypeClientHello, true⟩])[1]?
        = some (lastMatch (pushAll newHandshakeCache
            [⟨[0], 0, handshakeTypeClientHello, true⟩, ⟨[5], 0, handshakeTypeServerHello, false⟩,
              ⟨[2], 2, handshakeTypeClientHello, true⟩]).cache
            ⟨handshakeTypeClientHello, true⟩) ∧
      lastMatch (pushAll newHandshakeCache
          [⟨[0], 0, handshakeTypeClientHello, true⟩, ⟨[5], 0, handshakeTypeServerHello, false⟩,
            ⟨[2], 2, handshakeTypeClientHello, true⟩]).cache ⟨handshakeTypeClientHello, true⟩
        = some ⟨handshakeTypeClientHello, true, 2, [2]⟩ :=
  ⟨by decide,
    (pull_last_match_when_sequences_increase
      (pushAll newHandshakeCache
        [⟨[0], 0, handshakeTypeClientHello, true⟩, ⟨[5], 0, handshakeTypeServerHello, false⟩,
          ⟨[2], 2, handshakeTypeClientHello, true⟩])
      [⟨handshakeTypeServerHello, false⟩, ⟨handshakeTypeClientHello, true⟩] 1
      ⟨handshakeTypeClientHello, true⟩ (by decide)).2 (by decide),
    by decide⟩

/-! ## What a push changes for a query -/

theorem push_result_cases (h : handshakeCache) (data : Bytes) (messageSequence : Nat)
    (typ : handshakeType) (isClient : Bool) :
    h.push data messageSequence typ isClient = (false, h) ∨
      h.push data messageSequence typ isClient
        = (true, ⟨h.cache ++ [⟨typ, isClient, messageSequence, data⟩]⟩) := by
  cases hd : pushFindsDuplicate messageSequence isClient h.cache with
  | true => left; simp [handshakeCache.push, hd]
  | false => right; simp [handshakeCache.push, hd]

theorem pullOne_push_other (h : handshakeCache) (data : Bytes) (messageSequence : Nat)
    (typ : handshakeType) (isClient : Bool) (r : handshakeCachePullRule)
    (hother : ¬ (typ = r.typ ∧ isClient = r.isClient)) :
    pullOne (h.push data messageSequence typ isClient).2.cache r = pullOne h.cache r := by
  rcases push_result_cases h data messageSequence typ isClient with hp | hp
  · rw [hp]
  · rw [hp, pullOne_concat]
    unfold pullStep
    rw [if_neg hother]

theorem pull_singleton (h : handshakeCache) (r : handshakeCachePullRule) :
    h.pull [r] = [pullOne h.cache r] := by
  rw [pull_eq_map]
  rfl

/-- C19. A `push` of (typ, isClient) leaves the answer to every rule with another
type or direction as it was. When the push succeeds, the answer to the rule
(typ, isClient) is the new item if there was no match or if the item selected
before has a smaller messageSequence, and the item selected before otherwise.
A push whose (typ, isClient) is none of the eight canonical rules leaves
`sessionHash` as it was. -/
theorem push_affects_only_own_rule (h : handshakeCache) (data : Bytes)
    (messageSequence : Nat) (typ : handshakeType) (isClient : Bool) :
    (∀ r : handshakeCachePullRule, ¬ (typ = r.typ ∧ isClient = r.isClient) →
        (h.push data messageSequence typ isClient).2.pull [r] = h.pull [r]) ∧
      ((h.push data messageSequence typ isClient).1 = true →
        (h.pull [⟨typ, isClient⟩] = [none] →
          (h.push data messageSequence typ isClient).2.pull [⟨typ, isClient⟩]
            = [some ⟨typ, isClient, messageSequence, data⟩]) ∧
        (∀ o : handshakeCacheItem, h.pull [⟨typ, isClient⟩] = [some o] →
          o.messageSequence < messageSequence →
          (h.push data messageSequence typ isClient).2.pull [⟨typ, isClient⟩]
            = [some ⟨typ, isClient, messageSequence, data⟩]) ∧
        (∀ o : handshakeCacheItem, h.pull [⟨typ, isClient⟩] = [some o] →
          ¬ o.messageSequence < messageSequence →
          (h.push data messageSequence typ isClient).2.pull [⟨typ, isClient⟩]
            = [some o])) ∧
      ((∀ r ∈ sessionHashRules, ¬ (typ = r.typ ∧ isClient = r.isClient)) →
        ∀ {σ : Type} (hf : hashFunc σ),
          (h.push data messageSequence typ isClient).2.sessionHash hf = h.sessionHash hf) := by
  refine ⟨?_, ?_, ?_⟩
  · intro r hother
    rw [pull_singleton, pull_singleton,
      pullOne_push_other h data messageSequence typ isClient r hother]
  · intro hok
    have hp : h.push data messageSequence typ isClient
        = (true, ⟨h.cache ++ [⟨typ, isClient, messageSequence, data⟩]⟩) := by
      rcases push_result_cases h data messageSequence typ isClient with hp | hp
      · rw [hp] at hok
        exact Bool.noConfusion hok
      · exact hp
    have hnew : (h.push data messageSequence typ isClient).2.pull [⟨typ, isClient⟩]
        = [pullStep ⟨typ, isClient⟩ (pullOne h.cache ⟨typ, isClient⟩)
            ⟨typ, isClient, messageSequence, data⟩] := by
      rw [pull_singleton, hp, pullOne_concat]
    refine ⟨?_, ?_, ?_⟩
    · intro hnone
      rw [pull_singleton] at hnone
      rw [hnew, List.singleton_inj.mp hnone]
      simp [pullStep]
    · intro o ho hlt
      rw [pull_singleton] at ho
      rw [hnew, List.singleton_inj.mp ho]
      simp [pullStep, hlt]
    · intro o ho hlt
      rw [pull_singleton] at ho
      rw [hnew, List.singleton_inj.mp ho]
      simp [pullStep, hlt]
  · intro hnone σ hf
    have hpull : (h.push data messageSequence typ isClient).2.pull sessionHashRules
        = h.pull sessionHashRules := by
      rw [pull_eq_map, pull_eq_map]
      exact List.map_congr_left (fun r hr =>
        pullOne_push_other h data messageSequence typ isClient r (hnone r hr))
    unfold handshakeCache.sessionHash
    rw [hpull]

theorem push_affects_only_own_rule_witness :
    (sampleCache.push [8] 5 (handshakeType.other 20) false).1 = true ∧
      (∀ r ∈ sessionHashRules,
        ¬ (handshakeType.other 20 = r.typ ∧ false = r.isClient)) ∧
      (sampleCache.push [8] 5 (handshakeType.other 20) false).2.sessionHash sampleHash
        = sampleCache.sessionHash sampleHash ∧
      (sampleCache.push [8] 5 (handshakeType.other 20) false).2.pull
          [⟨handshakeType.other 20, false⟩]
        = [some ⟨handshakeType.other 20, false, 5, [8]⟩] :=
  ⟨by decide, by decide,
    (push_affects_only_own_rule sampleCache [8] 5 (handshakeType.other 20) false).2.2
      (by decide) sampleHash,
    ((push_affects_only_own_rule sampleCache [8] 5 (handshakeType.other 20) false).2.1
      (by decide)).1 (by decide)⟩

/-! ## Rules are answered one by one -/

theorem mergedData_append (a b : List (Option handshakeCacheItem)) :
    mergedData (a ++ b) = mergedData a ++ mergedData b := by
  simp [mergedData]

theorem pullAndMerge_eq_mergedData (h : handshakeCache)
    (rules : List handshakeCachePullRule) :
    h.pullAndMerge rules = mergedData (rules.map (pullOne h.cache)) := by
  unfold handshakeCache.pullAndMerge
  rw [foldl_mergeBody, pull_eq_map]
  rfl

/-- C20. Each rule is answered on its own: `pull` and `pullAndMerge` of two rule
lists put one after the other are the results for the first list followed by
the results for the second. A rule written n times contributes its matched data
n times. -/
theorem pull_and_merge_distribute_over_append (h : handshakeCache)
    (r1 r2 : List handshakeCachePullRule) :
    h.pull (r1 ++ r2) = h.pull r1 ++ h.pull r2 ∧
      h.pullAndMerge (r1 ++ r2) = h.pullAndMerge r1 ++ h.pullAndMerge r2 ∧
      ∀ (n : Nat) (r : handshakeCachePullRule),
        h.pullAndMerge (List.replicate n r)
          = (List.replicate n (h.pullAndMerge [r])).flatten := by
  refine ⟨?_, ?_, ?_⟩
  · rw [pull_eq_map, pull_eq_map, pull_eq_map, List.map_append]
  · rw [pullAndMerge_eq_mergedData, pullAndMerge_eq_mergedData, pullAndMerge_eq_mergedData,
      List.map_append, mergedData_append]
  · intro n r
    induction n with
    | zero => rfl
    | succ n ih =>
      have hsplit : List.replicate (n + 1) r = [r] ++ List.replicate n r := by
        rw [List.replicate_succ]
        rfl
      rw [hsplit, pullAndMerge_eq_mergedData, List.map_append, mergedData_append,
        ← pullAndMerge_eq_mergedData, ← pullAndMerge_eq_mergedData, ih,
        List.replicate_succ, List.flatten_cons]

/-! ## The stored data is a copy -/

theorem Memory.read_append_left (m : Memory) (bytes : Bytes) (p : Nat) (hp : p < m.length) :
    Memory.read (m ++ [bytes]) p = Memory.read m p := by
  unfold Memory.read
  rw [List.getD_eq_getElem?_getD, List.getD_eq_getElem?_getD, List.getElem?_append_left hp]

theorem Memory.read_append_length (m : Memory) (bytes : Bytes) :
    Memory.read (m ++ [bytes]) m.length = bytes := by
  unfold Memory.read
  rw [List.getD_eq_getElem?_getD, List.getElem?_concat_length]
  rfl

theorem Memory.read_write_ne (m : Memory) (p q : Nat) (bytes : Bytes) (hne : p ≠ q) :
    Memory.read (Memory.write m p bytes) q = Memory.read m q := by
  unfold Memory.read Memory.write
  rw [List.getD_eq_getElem?_getD, List.getD_eq_getElem?_getD, List.getElem?_set_ne hne]

theorem memPushFindsDuplicate_value (m : Memory) (messageSequence : Nat) (isClient : Bool)
    (l : List memCacheItem) :
    memPushFindsDuplicate messageSequence isClient l
      = pushFindsDuplicate messageSequence isClient (l.map (memCacheItem.value m)) := by
  induction l with
  | nil => rfl
  | cons a l ih =>
    simp only [memPushFindsDuplicate, List.map_cons, pushFindsDuplicate, memCacheItem.value, ih]

theorem memPush_of_true (h h2 : memCache) (m m2 : Memory) (data : Nat)
    (messageSequence : Nat) (typ : handshakeType) (isClient : Bool)
    (hpush : h.push m data messageSequence typ isClient = (true, h2, m2)) :
    memPushFindsDuplicate messageSequence isClient h.cache = false ∧
      h2 = ⟨h.cache ++ [⟨typ, isClient, messageSequence, m.length⟩]⟩ ∧
      m2 = m ++ [m.read data] := by
  unfold memCache.push at hpush
  cases hd : memPushFindsDuplicate messageSequence isClient h.cache with
  | true =>
    rw [hd] at hpush
    simp at hpush
  | false =>
    rw [hd] at hpush
    simp only [Bool.false_eq_true, if_false, Memory.alloc, List.nil_append, Prod.mk.injEq,
      true_and] at hpush
    exact ⟨rfl, hpush.1.symm, hpush.2.symm⟩

theorem value_congr (l : List memCacheItem) (m m2 : Memory)
    (hsame : ∀ i ∈ l, Memory.read m2 i.data = Memory.read m i.data) :
    l.map (memCacheItem.value m2) = l.map (memCacheItem.value m) := by
  apply List.map_congr_left
  intro i hi
  unfold memCacheItem.value
  rw [hsame i hi]

/-- C18, the claim as written fails for the queries. `pull` hands out the stored
items themselves, so the buffer of a stored item can be the buffer of the caller
of a later `push`. Here the buffer at address 1 belongs to the item stored by a
first push; it is pushed once more, as ServerHello, and then overwritten. The
item of the second push keeps its bytes, but `pull`, `pullAndMerge` and
`sessionHash` no longer return what they returned before the overwrite. -/
theorem overwrite_of_pulled_buffer_changes_queries :
    (memCache.mk []).push [[1, 2, 3]] 0 0 handshakeTypeClientHello true
        = (true, ⟨[⟨handshakeTypeClientHello, true, 0, 1⟩]⟩, [[1, 2, 3], [1, 2, 3]]) ∧
      (memCache.mk [⟨handshakeTypeClientHello, true, 0, 1⟩]).push [[1, 2, 3], [1, 2, 3]]
          1 0 handshakeTypeServerHello false
        = (true, ⟨[⟨handshakeTypeClientHello, true, 0, 1⟩,
              ⟨handshakeTypeServerHello, false, 0, 2⟩]⟩,
            [[1, 2, 3], [1, 2, 3], [1, 2, 3]]) ∧
      ((memCache.mk [⟨handshakeTypeClientHello, true, 0, 1⟩,
            ⟨handshakeTypeServerHello, false, 0, 2⟩]).value
          [[1, 2, 3], [1, 2, 3], [1, 2, 3]]).pullAndMerge
          [⟨handshakeTypeClientHello, true⟩, ⟨handshakeTypeServerHello, false⟩]
        = [1, 2, 3, 1, 2, 3] ∧
      ((memCache.mk [⟨handshakeTypeClientHello, true, 0, 1⟩,
            ⟨handshakeTypeServerHello, false, 0, 2⟩]).value
          (Memory.write [[1, 2, 3], [1, 2, 3], [1, 2, 3]] 1 [9, 9, 9])).pullAndMerge
          [⟨handshakeTypeClientHello, true⟩, ⟨handshakeTypeServerHello, false⟩]
        = [9, 9, 9, 1, 2, 3] ∧
      ((memCache.mk [⟨handshakeTypeClientHello, true, 0, 1⟩,
            ⟨handshakeTypeServerHello, false, 0, 2⟩]).value
          (Memory.write [[1, 2, 3], [1, 2, 3], [1, 2, 3]] 1 [9, 9, 9])).pull
          [⟨handshakeTypeClientHello, true⟩]
        ≠ ((memCache.mk [⟨handshakeTypeClientHello, true, 0, 1⟩,
            ⟨handshakeTypeServerHello, false, 0, 2⟩]).value
          [[1, 2, 3], [1, 2, 3], [1, 2, 3]]).pull [⟨handshakeTypeClientHello, true⟩] ∧
      ((memCache.mk [⟨handshakeTypeClientHello, true, 0, 1⟩,
            ⟨handshakeTypeServerHello, false, 0, 2⟩]).value
          (Memory.write [[1, 2, 3], [1, 2, 3], [1, 2, 3]] 1 [9, 9, 9])).sessionHash sampleHash
        ≠ ((memCache.mk [⟨handshakeTypeClientHello, true, 0, 1⟩,
            ⟨handshakeTypeServerHello, false, 0, 2⟩]).value
          [[1, 2, 3], [1, 2, 3], [1, 2, 3]]).sessionHash sampleHash := by
  decide

/-- C18, amended. `push` stores a copy. When a push from the buffer of the caller
at address `data` succeeds, the item it appends owns another buffer, which holds
the bytes the buffer of the caller held at the time of the push, and still holds
them after the caller has overwritten that buffer with anything. If the buffer of
the caller is not the buffer of an item stored earlier, the whole cache reads
the same after the overwrite, and so `pull`, `pullAndMerge` and `sessionHash`
return what they returned before it. Read as values, the cache after the push is
the value-level `push` of the bytes of the caller. -/
theorem push_stores_independent_copy (h h2 : memCache) (m m2 : Memory) (data : Nat)
    (messageSequence : Nat) (typ : handshakeType) (isClient : Bool) (later : Bytes)
    (hbuf : data < m.length)
    (hpush : h.push m data messageSequence typ isClient = (true, h2, m2)) :
    ∃ item : memCacheItem,
      h2.cache = h.cache ++ [item] ∧
      item.data ≠ data ∧
      Memory.read m2 item.data = Memory.read m data ∧
      Memory.read (Memory.write m2 data later) item.data = Memory.read m data ∧
      ((∀ i ∈ h.cache, i.data ≠ data) →
        h2.value (Memory.write m2 data later) = h2.value m2 ∧
        (∀ rules : List handshakeCachePullRule,
          (h2.value (Memory.write m2 data later)).pull rules = (h2.value m2).pull rules ∧
          (h2.value (Memory.write m2 data later)).pullAndMerge rules
            = (h2.value m2).pullAndMerge rules) ∧
        (∀ {σ : Type} (hf : hashFunc σ),
          (h2.value (Memory.write m2 data later)).sessionHash hf
            = (h2.value m2).sessionHash hf)) ∧
      ((∀ i ∈ h.cache, i.data < m.length) →
        (true, h2.value m2)
          = (h.value m).push (Memory.read m data) messageSequence typ isClient) := by
  obtain ⟨hd, hh2, hm2⟩ := memPush_of_true h h2 m m2 data messageSequence typ isClient hpush
  subst hh2
  subst hm2
  have hne : m.length ≠ data := Nat.ne_of_gt hbuf
  refine ⟨⟨typ, isClient, messageSequence, m.length⟩, rfl, hne, ?_, ?_, ?_, ?_⟩
  · exact Memory.read_append_length m _
  · rw [Memory.read_write_ne _ _ _ _ (Ne.symm hne)]
    exact Memory.read_append_length m _
  · intro hold
    have hval : memCache.value ⟨h.cache ++ [⟨typ, isClient, messageSequence, m.length⟩]⟩
          (Memory.write (m ++ [Memory.read m data]) data later)
        = memCache.value ⟨h.cache ++ [⟨typ, isClient, messageSequence, m.length⟩]⟩
          (m ++ [Memory.read m data]) := by
      unfold memCache.value
      rw [value_congr]
      intro i hi
      apply Memory.read_write_ne
      rcases List.mem_append.mp hi with hi | hi
      · exact Ne.symm (hold i hi)
      · rw [List.mem_singleton] at hi
        rw [hi]
        exact Ne.symm hne
    refine ⟨hval, ?_, ?_⟩
    · intro rules
      rw [hval]
      exact ⟨rfl, rfl⟩
    · intro σ hf
      rw [hval]
  · intro halloc
    have hdv : pushFindsDuplicate messageSequence isClient (h.value m).cache = false := by
      rw [← hd, memPushFindsDuplicate_value m]
      rfl
    unfold handshakeCache.push
    rw [hdv]
    simp only [Bool.false_eq_true, if_false, List.nil_append, memCache.value, List.map_append,
      List.map_cons, List.map_nil, Prod.mk.injEq, true_and, handshakeCache.mk.injEq]
    congr 1
    · apply value_congr
      intro i hi
      exact Memory.read_append_left m _ _ (halloc i hi)
    · simp only [memCacheItem.value, Memory.read_append_length]

theorem push_stores_independent_copy_witness :
    (0 : Nat) < ([[1, 2, 3], [4, 5]] : Memory).length ∧
      (memCache.mk [⟨handshakeTypeServerHello, false, 0, 1⟩]).push [[1, 2, 3], [4, 5]]
          0 0 handshakeTypeClientHello true
        = (true, ⟨[⟨handshakeTypeServerHello, false, 0, 1⟩,
              ⟨handshakeTypeClientHello, true, 0, 2⟩]⟩,
            [[1, 2, 3], [4, 5], [1, 2, 3]]) ∧
      (∀ i ∈ (memCache.mk [⟨handshakeTypeServerHello, false, 0, 1⟩]).cache, i.data ≠ 0) ∧
      (memCache.mk [⟨handshakeTypeServerHello, false, 0, 1⟩,
          ⟨handshakeTypeClientHello, true, 0, 2⟩]).value
          (Memory.write [[1, 2, 3], [4, 5], [1, 2, 3]] 0 [9, 9, 9])
        = ⟨[⟨handshakeTypeServerHello, false, 0, [4, 5]⟩,
            ⟨handshakeTypeClientHello, true, 0, [1, 2, 3]⟩]⟩ ∧
      ((memCache.mk [⟨handshakeTypeServerHello, false, 0, 1⟩,
          ⟨handshakeTypeClientHello, true, 0, 2⟩]).value
          (Memory.write [[1, 2, 3], [4, 5], [1, 2, 3]] 0 [9, 9, 9])).pullAndMerge
          [⟨handshakeTypeClientHello, true⟩, ⟨handshakeTypeServerHello, false⟩]
        = [1, 2, 3, 4, 5] ∧
      ((memCache.mk [⟨handshakeTypeServerHello, false, 0, 1⟩,
          ⟨handshakeTypeClientHello, true, 0, 2⟩]).value
          (Memory.write [[1, 2, 3], [4, 5], [1, 2, 3]] 0 [9, 9, 9])).sessionHash sampleHash
        = ([1, 2, 3, 4, 5], none) :=
  ⟨by decide, rfl, by decide,
    match push_stores_independent_copy ⟨[⟨handshakeTypeServerHello, false, 0, 1⟩]⟩
        ⟨[⟨handshakeTypeServerHello, false, 0, 1⟩, ⟨handshakeTypeClientHello, true, 0, 2⟩]⟩
        [[1, 2, 3], [4, 5]] [[1, 2, 3], [4, 5], [1, 2, 3]] 0 0 handshakeTypeClientHello true
        [9, 9, 9] (by decide) rfl with
    | ⟨_, _, _, _, _, hq, _⟩ =>
      ⟨(hq (by decide)).1.trans rfl,
        ((hq (by decide)).2.1
          [⟨handshakeTypeClientHello, true⟩, ⟨handshakeTypeServerHello, false⟩]).2.trans rfl,
        ((hq (by decide)).2.2 sampleHash).trans rfl⟩⟩

end Dtls
